import Mathlib

/-!
Verification of the yaslha SLHA-file library against its specification.

Python floating-point numbers are modelled as exact rationals; machine
rounding is outside the model, so every stated equality is exact.
Python ordered dictionaries are modelled as association lists in which
overwriting keeps the position of an existing key and a fresh key is
appended at the end.
-/

namespace Yaslha

/-- Lookup in a Python ordered dict (`OrderedDict`): the value stored at the
first matching key, if any. -/
def dGet {κ ν : Type} [DecidableEq κ] : List (κ × ν) → κ → Option ν
  | [], _ => none
  | kv :: t, k => if kv.1 = k then some kv.2 else dGet t k

/-- Assignment in a Python ordered dict: an existing key keeps its position
(and its stored key object), a fresh key is appended at the end. -/
def dSet {κ ν : Type} [DecidableEq κ] : List (κ × ν) → κ → ν → List (κ × ν)
  | [], k, v => [(k, v)]
  | kv :: t, k, v => if kv.1 = k then (kv.1, v) :: t else kv :: dSet t k v

/-- Deletion in a Python ordered dict (keys are unique, so removing the first
occurrence models `del`). -/
def dDel {κ ν : Type} [DecidableEq κ] : List (κ × ν) → κ → List (κ × ν)
  | [], _ => []
  | kv :: t, k => if kv.1 = k then t else kv :: dDel t k

/-- The keys of an association list, in storage order. -/
def dKeys {κ ν : Type} (l : List (κ × ν)) : List κ := l.map Prod.fst

theorem dGet_dSet_self {κ ν : Type} [DecidableEq κ] (l : List (κ × ν)) (k : κ) (v : ν) :
    dGet (dSet l k v) k = some v := by
  induction l with
  | nil => simp [dGet, dSet]
  | cons kv t ih =>
    by_cases h : kv.1 = k
    · simp [dGet, dSet, h]
    · simp [dGet, dSet, h, ih]

theorem dKeys_cons {κ ν : Type} (kv : κ × ν) (t : List (κ × ν)) :
    dKeys (kv :: t) = kv.1 :: dKeys t := rfl

theorem mem_dKeys_cons {κ ν : Type} (kv : κ × ν) (t : List (κ × ν)) (k : κ) :
    k ∈ dKeys (kv :: t) ↔ kv.1 = k ∨ k ∈ dKeys t := by
  rw [dKeys_cons, List.mem_cons]
  constructor
  · rintro (h | h)
    · exact Or.inl h.symm
    · exact Or.inr h
  · rintro (h | h)
    · exact Or.inl h.symm
    · exact Or.inr h

theorem dGet_dSet_ne {κ ν : Type} [DecidableEq κ] (l : List (κ × ν)) (k k' : κ) (v : ν)
    (h : k' ≠ k) : dGet (dSet l k v) k' = dGet l k' := by
  induction l with
  | nil =>
    have hne : ¬ k = k' := fun hc => h hc.symm
    simp [dGet, dSet, hne]
  | cons kv t ih =>
    by_cases hk : kv.1 = k
    · have hne : ¬ kv.1 = k' := fun hc => h (hc ▸ hk ▸ rfl)
      rw [dSet, if_pos hk, dGet, if_neg hne, dGet, if_neg hne]
    · rw [dSet, if_neg hk]
      by_cases hk' : kv.1 = k'
      · rw [dGet, if_pos hk', dGet, if_pos hk']
      · rw [dGet, if_neg hk', dGet, if_neg hk', ih]

theorem dGet_map {κ ν : Type} [DecidableEq κ] (g : κ → ν → ν) (l : List (κ × ν)) (k : κ) :
    dGet (l.map (fun kv => (kv.1, g kv.1 kv.2))) k = (dGet l k).map (g k) := by
  induction l with
  | nil => simp [dGet]
  | cons kv t ih =>
    by_cases h : kv.1 = k
    · subst h
      simp [dGet]
    · simp only [List.map_cons, dGet, h, if_false, ih]

theorem dKeys_dSet_mem {κ ν : Type} [DecidableEq κ] (l : List (κ × ν)) (k : κ) (v : ν)
    (h : k ∈ dKeys l) : dKeys (dSet l k v) = dKeys l := by
  induction l with
  | nil => simp [dKeys] at h
  | cons kv t ih =>
    by_cases hk : kv.1 = k
    · rw [dSet, if_pos hk, dKeys_cons, dKeys_cons]
    · have ht : k ∈ dKeys t := by
        rcases (mem_dKeys_cons kv t k).mp h with h1 | h2
        · exact absurd h1 hk
        · exact h2
      rw [dSet, if_neg hk, dKeys_cons, dKeys_cons, ih ht]

theorem dKeys_dSet_not_mem {κ ν : Type} [DecidableEq κ] (l : List (κ × ν)) (k : κ) (v : ν)
    (h : ¬ k ∈ dKeys l) : dKeys (dSet l k v) = dKeys l ++ [k] := by
  induction l with
  | nil => simp [dKeys, dSet]
  | cons kv t ih =>
    have hk : ¬ kv.1 = k := fun hc => h ((mem_dKeys_cons kv t k).mpr (Or.inl hc))
    have ht : ¬ k ∈ dKeys t := fun hc => h ((mem_dKeys_cons kv t k).mpr (Or.inr hc))
    rw [dSet, if_neg hk, dKeys_cons, dKeys_cons, ih ht, List.cons_append]

theorem dGet_isSome_iff_mem {κ ν : Type} [DecidableEq κ] (l : List (κ × ν)) (k : κ) :
    (dGet l k).isSome = true ↔ k ∈ dKeys l := by
  induction l with
  | nil => simp [dGet, dKeys]
  | cons kv t ih =>
    by_cases h : kv.1 = k
    · simp [dGet, h, mem_dKeys_cons]
    · rw [dGet, if_neg h, mem_dKeys_cons, ih]
      constructor
      · exact Or.inr
      · rintro (h1 | h2)
        · exact absurd h1 h
        · exact h2

theorem length_dSet_mem {κ ν : Type} [DecidableEq κ] (l : List (κ × ν)) (k : κ) (v : ν)
    (h : k ∈ dKeys l) : (dSet l k v).length = l.length := by
  have := dKeys_dSet_mem l k v h
  have h1 : (dSet l k v).length = (dKeys (dSet l k v)).length := by simp [dKeys]
  have h2 : l.length = (dKeys l).length := by simp [dKeys]
  rw [h1, this, ← h2]

theorem length_dSet_not_mem {κ ν : Type} [DecidableEq κ] (l : List (κ × ν)) (k : κ) (v : ν)
    (h : ¬ k ∈ dKeys l) : (dSet l k v).length = l.length + 1 := by
  have := dKeys_dSet_not_mem l k v h
  have h1 : (dSet l k v).length = (dKeys (dSet l k v)).length := by simp [dKeys]
  have h2 : l.length = (dKeys l).length := by simp [dKeys]
  rw [h1, this]
  simp [← h2]

theorem length_dDel_mem {κ ν : Type} [DecidableEq κ] (l : List (κ × ν)) (k : κ)
    (h : k ∈ dKeys l) : (dDel l k).length + 1 = l.length := by
  induction l with
  | nil => simp [dKeys] at h
  | cons kv t ih =>
    by_cases hk : kv.1 = k
    · simp [dDel, hk]
    · have ht : k ∈ dKeys t := by
        rcases (mem_dKeys_cons kv t k).mp h with h1 | h2
        · exact absurd h1 hk
        · exact h2
      have := ih ht
      simp only [dDel, hk, if_false, List.length_cons]
      omega

/-!
The entity model of `yaslha/block.py` and `yaslha/line.py` (the 0.2.0 API).
Channels are tuples of particle IDs, modelled as lists of integers.
-/

/-- Normalization applied by `OrderedTupleOrderInsensitiveDict._n`
(`yaslha/_collections.py`): a tuple key is replaced by its sorted tuple. -/
def chNorm (k : List ℤ) : List ℤ := k.insertionSort (· ≤ ·)

/-- Head line of a decay block (`DecayHeadLine` in `yaslha/line.py`). -/
structure DecayHeadLine where
  pid : ℤ
  width : ℚ
  comment : String
  preComment : List String
deriving DecidableEq

/-- One decay-channel line (`DecayLine` in `yaslha/line.py`): the raw channel
tuple as given, the branching ratio (its `value`), and comments. -/
structure DecayLine where
  key : List ℤ
  br : ℚ
  comment : String
  preComment : List String
deriving DecidableEq

/-- Decay block (`Decay` in `yaslha/block.py`): head line plus an ordered
mapping from the order-normalized channel tuple to the stored line. -/
structure Decay where
  head : DecayHeadLine
  data : List (List ℤ × DecayLine)
deriving DecidableEq

namespace Decay

/-- Threshold `Decay.br_normalize_threshold = 1.0e-6`. -/
def br_normalize_threshold : ℚ := 1 / 1000000

/-- Property `Decay.pid`. -/
def pid (d : Decay) : ℤ := d.head.pid

/-- Property `Decay.width`. -/
def width (d : Decay) : ℚ := d.head.width

/-- Method `Decay.update_line`: store the line under its normalized channel,
overriding an existing entry. -/
def update_line (d : Decay) (l : DecayLine) : Decay :=
  { d with data := dSet d.data (chNorm l.key) l }

/-- Method `Decay.br`: the stored BR of the channel, or 0 if absent. -/
def br (d : Decay) (k : List ℤ) : ℚ :=
  match dGet d.data (chNorm k) with
  | some l => l.br
  | none => 0

/-- Method `Decay.partial_width`: `self.width * self.br(*key)`. -/
def partial_width (d : Decay) (k : List ℤ) : ℚ := d.width * d.br k

/-- Sum of all stored branching ratios. `Decay.normalize` sums them from the
smallest to reduce floating error; over exact rationals the order of the
summation is irrelevant, so the plain sum is the faithful model. -/
def brTotal (d : Decay) : ℚ := (d.data.map (fun kv => kv.2.br)).sum

/-- The rescaling loop at the end of `Decay.normalize`:
`for v in self._data.values(): v.br /= total`. -/
def brScale (d : Decay) (total : ℚ) : Decay :=
  { d with data := d.data.map (fun kv => (kv.1, { kv.2 with br := kv.2.br / total })) }

/-- Method `Decay.normalize(force)`. `none` models the `ValueError` raised
when the BR total exceeds unity by more than the threshold. The one-time
`logger.warning` for a total below unity only logs and is not modelled. -/
def normalize (d : Decay) (force : Bool) : Option Decay :=
  let total := d.brTotal
  if ¬ 0 < total then some d
  else if force then some (d.brScale total)
  else if 1 + br_normalize_threshold < total then none
  else if 1 ≤ total then some (d.brScale total)
  else some d

/-- Body of `Decay.set_partial_width` after the successful `self.normalize()`
call: membership test, insertion of a fresh zero-BR line when the channel is
new, the total-width update, the BR of the target channel, and the rescaling
loop over every other stored line. `none` models the `ZeroDivisionError`
raised when the updated total width is zero. -/
def spwCore (d1 : Decay) (ch : List ℤ) (new_partial_width : ℚ) : Option Decay :=
  let present := (dGet d1.data (chNorm ch)).isSome
  let old_partial_width : ℚ := if present then d1.partial_width ch else 0
  let d2 :=
    if present then d1
    else d1.update_line { key := ch, br := 0, comment := "", preComment := [] }
  let old_width := d2.width
  let new_width := new_partial_width - old_partial_width + old_width
  if new_width = 0 then none
  else
    some { head := { d2.head with width := new_width },
           data := d2.data.map (fun kv =>
             (kv.1,
               if kv.1 = chNorm ch then
                 { kv.2 with br := new_partial_width / new_width }
               else
                 { kv.2 with br := kv.2.br * (old_width / new_width) })) }

/-- Method `Decay.set_partial_width(*args)`. The guard models
`len(args) < 3` (`args` is the channel followed by the new width, so a
channel needs at least two daughters); the integer-type test on the channel
holds by the type of `ch`. -/
def set_partial_width (d : Decay) (ch : List ℤ) (new_partial_width : ℚ) : Option Decay :=
  if ch.length < 2 then none
  else
    match d.normalize false with
    | none => none
    | some d1 => spwCore d1 ch new_partial_width

end Decay

theorem sum_map_br_div (l : List (List ℤ × DecayLine)) (t : ℚ) :
    ((l.map (fun kv => (kv.1, { kv.2 with br := kv.2.br / t }))).map
      (fun kv => kv.2.br)).sum = (l.map (fun kv => kv.2.br)).sum / t := by
  induction l with
  | nil => simp
  | cons kv tl ih =>
    simp only [List.map_cons, List.sum_cons, List.map_map] at ih ⊢
    rw [ih, add_div]

theorem brTotal_brScale (d : Decay) (t : ℚ) :
    (d.brScale t).brTotal = d.brTotal / t := by
  unfold Decay.brTotal Decay.brScale
  exact sum_map_br_div d.data t

theorem brScale_one (d : Decay) : d.brScale 1 = d := by
  show ({ d with data := _ } : Decay) = d
  have : d.data.map (fun kv => (kv.1, { kv.2 with br := kv.2.br / 1 })) = d.data := by
    have : (fun kv : List ℤ × DecayLine => (kv.1, { kv.2 with br := kv.2.br / 1 })) =
        fun kv => kv := by
      funext kv
      simp
    rw [this, List.map_id']
  rw [this]

theorem normalize_of_total_le_one (d : Decay) (h : d.brTotal ≤ 1) :
    d.normalize false = some d := by
  have hpos : (0 : ℚ) < Decay.br_normalize_threshold := by
    norm_num [Decay.br_normalize_threshold]
  by_cases h0 : 0 < d.brTotal
  · have hth : ¬ 1 + Decay.br_normalize_threshold < d.brTotal := by
      push_neg
      linarith
    by_cases h1 : 1 ≤ d.brTotal
    · have heq : d.brTotal = 1 := le_antisymm h h1
      simp [Decay.normalize, h0, hth, h1, heq, brScale_one, le_of_lt hpos]
    · simp [Decay.normalize, h0, hth, h1]
  · simp [Decay.normalize, h0]

/-- C2: `Decay.normalize(force=False)`, with `total` the sum of the stored
branching ratios: a zero total is a no-op; a total in `[1, 1 + 1e-6]`
rescales every BR by `1/total`, so the sum becomes exactly 1, without
raising; a total above `1 + 1e-6` raises `ValueError` (modelled as `none`);
a total below 1 leaves the BRs unchanged. -/
theorem C2_normalize_tolerance (d : Decay) :
    (d.brTotal = 0 → d.normalize false = some d) ∧
    (1 ≤ d.brTotal → d.brTotal ≤ 1 + Decay.br_normalize_threshold →
      d.normalize false = some (d.brScale d.brTotal) ∧
      (d.brScale d.brTotal).brTotal = 1) ∧
    (1 + Decay.br_normalize_threshold < d.brTotal → d.normalize false = none) ∧
    (d.brTotal < 1 → d.normalize false = some d) := by
  refine ⟨?_, ?_, ?_, ?_⟩
  · intro h
    exact normalize_of_total_le_one d (by rw [h]; norm_num)
  · intro h1 h2
    have h0 : 0 < d.brTotal := lt_of_lt_of_le one_pos h1
    have hne : d.brTotal ≠ 0 := ne_of_gt h0
    have hth : ¬ 1 + Decay.br_normalize_threshold < d.brTotal := not_lt.mpr h2
    refine ⟨?_, ?_⟩
    · simp [Decay.normalize, h0, hth, h1]
    · rw [brTotal_brScale, div_self hne]
  · intro h
    have h0 : 0 < d.brTotal := by
      have : (0 : ℚ) < 1 + Decay.br_normalize_threshold := by
        norm_num [Decay.br_normalize_threshold]
      linarith
    simp [Decay.normalize, h0, h]
  · intro h
    exact normalize_of_total_le_one d (le_of_lt h)

/-- A decay line with empty comments, used for concrete examples. -/
def exLine (ch : List ℤ) (b : ℚ) : DecayLine :=
  { key := ch, br := b, comment := "", preComment := [] }

/-- A decay block of particle 25 with the given width and channels, keys
stored normalized as `Decay.update_line` stores them. -/
def exDecay (w : ℚ) (entries : List (List ℤ × ℚ)) : Decay :=
  { head := { pid := 25, width := w, comment := "", preComment := [] },
    data := entries.map (fun e => (chNorm e.1, exLine e.1 e.2)) }

/-- A decay whose BR total is `1 + 0.9e-6`: inside the tolerance band. -/
def dexSilent : Decay := exDecay 1 [([5, -5], 1 + 9 / 10000000)]

/-- A decay whose BR total is `1 + 2e-6`: above the tolerance band. -/
def dexRaise : Decay := exDecay 1 [([5, -5], 1 + 2 / 1000000)]

/-- A decay whose BR total is `1/2`: below unity. -/
def dexUnder : Decay := exDecay 1 [([5, -5], 1 / 2)]

theorem C2_normalize_tolerance_witness :
    dexSilent.normalize false = some (dexSilent.brScale dexSilent.brTotal) ∧
    dexRaise.normalize false = none ∧
    dexUnder.normalize false = some dexUnder := by
  refine ⟨?_, ?_, ?_⟩
  · exact ((C2_normalize_tolerance dexSilent).2.1
      (by norm_num [Decay.brTotal, dexSilent, exDecay, exLine])
      (by norm_num [Decay.brTotal, dexSilent, exDecay, exLine,
        Decay.br_normalize_threshold])).1
  · exact (C2_normalize_tolerance dexRaise).2.2.1
      (by norm_num [Decay.brTotal, dexRaise, exDecay, exLine,
        Decay.br_normalize_threshold])
  · exact (C2_normalize_tolerance dexUnder).2.2.2
      (by norm_num [Decay.brTotal, dexUnder, exDecay, exLine])

theorem dGet_map_br (c0 : List ℤ) (b1 s : ℚ) (l : List (List ℤ × DecayLine))
    (k : List ℤ) :
    dGet (l.map (fun kv =>
      (kv.1,
        if kv.1 = c0 then { kv.2 with br := b1 }
        else { kv.2 with br := kv.2.br * s }))) k =
    (dGet l k).map (fun v =>
      if k = c0 then { v with br := b1 } else { v with br := v.br * s }) := by
  induction l with
  | nil => simp [dGet]
  | cons kv t ih =>
    by_cases h : kv.1 = k
    · subst h
      simp [dGet]
    · simp only [List.map_cons, dGet, h, if_false, ih]

/-- C1: after `set_partial_width(ch, w)` succeeds, the channel's partial
width equals `w`, every other channel's partial width is unchanged, and the
total width becomes `old_width - old_partial_width + w` — exactly, over the
rational model of the floats. The hypotheses keep the call on its normal
path: the channel has at least two daughters (fewer raise `KeyError`), the
BR total does not exceed unity (so the initial `normalize()` call neither
raises nor rescales), and the updated total width is not zero (a zero one
raises `ZeroDivisionError`). -/
theorem C1_set_partial_width (d : Decay) (ch : List ℤ) (w : ℚ)
    (hlen : 2 ≤ ch.length) (htot : d.brTotal ≤ 1)
    (hw : w - d.partial_width ch + d.width ≠ 0) :
    ∃ d', d.set_partial_width ch w = some d' ∧
      d'.partial_width ch = w ∧
      (∀ ch', chNorm ch' ≠ chNorm ch → d'.partial_width ch' = d.partial_width ch') ∧
      d'.width = d.width - d.partial_width ch + w := by
  have hguard : ¬ ch.length < 2 := by omega
  have hnorm := normalize_of_total_le_one d htot
  by_cases hp : (dGet d.data (chNorm ch)).isSome = true
  · -- the channel is already present
    obtain ⟨l, hl⟩ := Option.isSome_iff_exists.mp hp
    have hw2 : w - d.head.width * l.br + d.head.width ≠ 0 := by
      have h := hw
      unfold Decay.partial_width Decay.br Decay.width at h
      rw [hl] at h
      exact h
    refine ⟨{ head := { d.head with width := w - d.partial_width ch + d.width },
              data := d.data.map (fun kv =>
                (kv.1,
                  if kv.1 = chNorm ch then
                    { kv.2 with br := w / (w - d.partial_width ch + d.width) }
                  else
                    { kv.2 with
                      br := kv.2.br * (d.width / (w - d.partial_width ch + d.width)) })) },
            ?_, ?_, ?_, ?_⟩
    · unfold Decay.set_partial_width
      rw [if_neg hguard, hnorm]
      simp [Decay.spwCore, hp, hw]
    · unfold Decay.partial_width Decay.br Decay.width
      dsimp only
      rw [dGet_map_br, hl]
      simp only [Option.map_some', if_true]
      rw [mul_comm, div_mul_cancel₀ _ hw2]
    · intro ch' hne
      unfold Decay.partial_width Decay.br Decay.width
      dsimp only
      rw [dGet_map_br, hl]
      dsimp only
      cases hg : dGet d.data (chNorm ch') with
      | none => simp
      | some l' =>
        simp only [Option.map_some']
        rw [if_neg hne]
        dsimp only
        field_simp [hw2]
        ring
    · unfold Decay.width
      dsimp only
      ring
  · -- the channel is new: a zero-BR line is inserted first
    have hnone : dGet d.data (chNorm ch) = none := Option.not_isSome_iff_eq_none.mp hp
    have hpw0 : d.partial_width ch = 0 := by
      unfold Decay.partial_width Decay.br
      rw [hnone]
      simp
    have hw' : w + d.head.width ≠ 0 := by
      rw [hpw0, sub_zero] at hw
      exact hw
    have hfalse : (dGet d.data (chNorm ch)).isSome = false := by
      rw [hnone]
      rfl
    refine ⟨{ head := { d.head with width := w + d.width },
              data := (dSet d.data (chNorm ch)
                  { key := ch, br := 0, comment := "", preComment := [] }).map (fun kv =>
                (kv.1,
                  if kv.1 = chNorm ch then
                    { kv.2 with br := w / (w + d.width) }
                  else
                    { kv.2 with br := kv.2.br * (d.width / (w + d.width)) })) },
            ?_, ?_, ?_, ?_⟩
    · unfold Decay.set_partial_width
      rw [if_neg hguard, hnorm]
      simp [Decay.spwCore, hfalse, hw', Decay.update_line, Decay.width]
    · unfold Decay.partial_width Decay.br Decay.width
      dsimp only
      rw [dGet_map_br, dGet_dSet_self]
      simp only [Option.map_some', if_true]
      rw [mul_comm, div_mul_cancel₀ _ hw']
    · intro ch' hne
      unfold Decay.partial_width Decay.br Decay.width
      dsimp only
      rw [dGet_map_br, dGet_dSet_ne _ _ _ _ hne]
      cases hg : dGet d.data (chNorm ch') with
      | none => simp
      | some l' =>
        simp only [Option.map_some']
        rw [if_neg hne]
        dsimp only
        field_simp [hw']
        ring
    · unfold Decay.width
      dsimp only
      rw [hpw0]
      ring

/-- A concrete decay with a single channel of branching ratio 1/2. -/
def dexHalf : Decay := exDecay 1 [([5, -5], 1 / 2)]

theorem C1_set_partial_width_witness :
    2 ≤ ([21, 21] : List ℤ).length ∧
    dexHalf.brTotal ≤ 1 ∧
    (1 / 4 : ℚ) - dexHalf.partial_width [21, 21] + dexHalf.width ≠ 0 ∧
    ∃ d', dexHalf.set_partial_width [21, 21] (1 / 4) = some d' ∧
      d'.partial_width [21, 21] = 1 / 4 ∧
      (∀ ch', chNorm ch' ≠ chNorm [21, 21] →
        d'.partial_width ch' = dexHalf.partial_width ch') ∧
      d'.width = dexHalf.width - dexHalf.partial_width [21, 21] + 1 / 4 := by
  have h1 : 2 ≤ ([21, 21] : List ℤ).length := by decide
  have h2 : dexHalf.brTotal ≤ 1 := by
    norm_num [Decay.brTotal, dexHalf, exDecay, exLine]
  have h3 : (1 / 4 : ℚ) - dexHalf.partial_width [21, 21] + dexHalf.width ≠ 0 := by
    have hpw : dexHalf.partial_width [21, 21] = 0 := by
      simp [Decay.partial_width, Decay.br, Decay.width, dexHalf, exDecay, exLine,
        dGet, chNorm, List.insertionSort, List.orderedInsert]
    rw [hpw]
    norm_num [Decay.width, dexHalf, exDecay]
  exact ⟨h1, h2, h3, C1_set_partial_width dexHalf [21, 21] (1 / 4) h1 h2 h3⟩

theorem chNorm_of_perm (k1 k2 : List ℤ) (h : k1.Perm k2) : chNorm k1 = chNorm k2 := by
  unfold chNorm
  refine List.eq_of_perm_of_sorted ?_ (List.sorted_insertionSort _ k1)
    (List.sorted_insertionSort _ k2)
  exact ((List.perm_insertionSort _ k1).trans h).trans (List.perm_insertionSort _ k2).symm

/-- C4: decay-channel lookup and storage are daughter-order-insensitive:
`br` applied to any permutation of the same daughter PIDs returns the same
value, and a line stored by `update_line` is found by `br` under any
permutation of the daughters it was inserted with. -/
theorem C4_channel_permutation (d : Decay) :
    (∀ k1 k2 : List ℤ, k1.Perm k2 → d.br k1 = d.br k2) ∧
    (∀ (l : DecayLine) (k : List ℤ), l.key.Perm k → (d.update_line l).br k = l.br) := by
  constructor
  · intro k1 k2 h
    unfold Decay.br
    rw [chNorm_of_perm k1 k2 h]
  · intro l k h
    unfold Decay.update_line Decay.br
    dsimp only
    rw [← chNorm_of_perm l.key k h, dGet_dSet_self]

/-- The decay of the spec example: channel `(1000022, -11)` with BR 1/2. -/
def dexNeut : Decay := exDecay 1 [([1000022, -11], 1 / 2)]

theorem C4_channel_permutation_witness :
    ([(1000022 : ℤ), -11].Perm [-11, 1000022] ∧
      dexNeut.br [1000022, -11] = dexNeut.br [-11, 1000022]) ∧
    (dexNeut.update_line (exLine [1000022, -11] (1 / 2))).br [-11, 1000022] = 1 / 2 := by
  have hperm : ([(1000022 : ℤ), -11]).Perm [-11, 1000022] := by
    exact List.Perm.swap (-11) 1000022 []
  refine ⟨⟨hperm, (C4_channel_permutation dexNeut).1 _ _ hperm⟩, ?_⟩
  exact (C4_channel_permutation dexNeut).2 (exLine [1000022, -11] (1 / 2))
    [-11, 1000022] hperm

/-!
The SLHA container (`yaslha/slha.py`) with its case-insensitive block
mapping (`OrderedCaseInsensitiveDict` in `yaslha/_collections.py`).
-/

/-- Key type of ordinary blocks (`KeyType` in `yaslha/_line.py`): absent, a
single integer, or a tuple of integers. Distinct constructors model the
distinct Python keys `None`, `5` and `(5,)`. -/
inductive BKey where
  | noKey : BKey
  | idx : ℤ → BKey
  | tup : List ℤ → BKey
deriving DecidableEq

/-- Head line of an ordinary block (`BlockHeadLine` in `yaslha/line.py`);
its `name` setter stores the name in upper case. -/
structure BlockHeadLine where
  name : String
  q : Option ℚ
  comment : String
  preComment : List String
deriving DecidableEq

/-- A value line of an ordinary block (`ValueLine` in `yaslha/line.py`). -/
structure ValueLine where
  key : BKey
  value : ℚ
  comment : String
  preComment : List String
deriving DecidableEq

/-- Ordinary SLHA block (`Block` in `yaslha/block.py`): one line per key. -/
structure Block where
  head : BlockHeadLine
  data : List (BKey × ValueLine)
deriving DecidableEq

/-- Python `str.upper` for the ASCII block names, as applied by the `_n`
normalizer of `OrderedCaseInsensitiveDict` and by the `name` setter of
`BlockHeadLine`. -/
def strUpper (s : String) : String := String.mk (s.data.map Char.toUpper)

/-- The SLHA container (`SLHA` in `yaslha/slha.py`): blocks under
case-insensitively normalized names, decays under their PID. -/
structure SLHA where
  blocks : List (String × Block)
  decays : List (ℤ × Decay)
  tailComment : List String
deriving DecidableEq

namespace SLHA

/-- Lookup `slha[name]` for a block name: `self.blocks[key]`, where the
case-insensitive dict normalizes the key with `upper`. `none` models the
`KeyError` for a missing block. -/
def getBlock (s : SLHA) (name : String) : Option Block :=
  dGet s.blocks (strUpper name)

/-- Assignment `slha[name] = block`: `__setitem__` first writes the key back
into the head line (`value.head.name = key`, whose setter uppercases), then
stores the block under the normalized name. -/
def setBlock (s : SLHA) (name : String) (b : Block) : SLHA :=
  let b2 : Block := { b with head := { b.head with name := strUpper name } }
  { s with blocks := dSet s.blocks (strUpper name) b2 }

end SLHA

/-- C5: indexing an SLHA object with any case variant of a block name gives
the same block, and a block stored under one case variant is visible,
with its head name canonicalized, under every other case variant. -/
theorem C5_case_insensitive (s : SLHA) (n1 n2 : String)
    (h : strUpper n1 = strUpper n2) :
    s.getBlock n1 = s.getBlock n2 ∧
    (∀ b : Block, (s.setBlock n1 b).getBlock n2 =
      some { b with head := { b.head with name := strUpper n1 } }) := by
  constructor
  · unfold SLHA.getBlock
    rw [h]
  · intro b
    unfold SLHA.getBlock SLHA.setBlock
    dsimp only
    rw [← h, dGet_dSet_self]

/-- An SLHA object holding one block called MASS. -/
def exSLHA : SLHA :=
  { blocks := [("MASS",
      { head := { name := "MASS", q := none, comment := "", preComment := [] },
        data := [] })],
    decays := [], tailComment := [] }

theorem C5_case_insensitive_witness :
    strUpper "mass" = strUpper "Mass" ∧
    exSLHA.getBlock "mass" = exSLHA.getBlock "Mass" ∧
    ∀ b : Block, (exSLHA.setBlock "mass" b).getBlock "MASS" =
      some { b with head := { b.head with name := strUpper "mass" } } := by
  have h : strUpper "mass" = strUpper "Mass" := by decide
  have h2 : strUpper "mass" = strUpper "MASS" := by decide
  exact ⟨h, (C5_case_insensitive exSLHA "mass" "Mass" h).1,
    (C5_case_insensitive exSLHA "mass" "MASS" h2).2⟩

/-!
Operations of ordinary blocks (`Block` in `yaslha/block.py`) and of INFO
blocks (`InfoBlock` there).
-/

/-- Constructor dispatch `ValueLine.new` (`yaslha/line.py`): a missing key
gives a `NoIndexLine`, an integer or 1-tuple a `OneIndexLine`, a 2- or
3-tuple a `TwoIndexLine`/`ThreeIndexLine`; any other key raises `TypeError`.
Comments start empty. -/
def ValueLine.new (k : BKey) (v : ℚ) : Option ValueLine :=
  match k with
  | .noKey => some { key := .noKey, value := v, comment := "", preComment := [] }
  | .idx i => some { key := .idx i, value := v, comment := "", preComment := [] }
  | .tup [i] => some { key := .idx i, value := v, comment := "", preComment := [] }
  | .tup [i, j] => some { key := .tup [i, j], value := v, comment := "", preComment := [] }
  | .tup [i, j, m] => some { key := .tup [i, j, m], value := v, comment := "", preComment := [] }
  | .tup _ => none

namespace Block

/-- Method `Block.__setitem__`: an existing line keeps its position and only
its value changes; otherwise a line built by `ValueLine.new` is stored.
`none` models the `TypeError` of `ValueLine.new`. -/
def setItem (b : Block) (k : BKey) (v : ℚ) : Option Block :=
  match dGet b.data k with
  | some l => some { b with data := dSet b.data k { l with value := v } }
  | none =>
    match ValueLine.new k v with
    | some l => some { b with data := dSet b.data k l }
    | none => none

/-- Method `Block.__getitem__`: the stored value, `none` for `KeyError`. -/
def getItem (b : Block) (k : BKey) : Option ℚ :=
  (dGet b.data k).map (fun l => l.value)

/-- Method `Block.get(*key, default)`: the starred parameter packs the given
indices into a tuple, and that tuple is tested against the stored keys
(`if key in self._data`), so the lookup key is always the tuple key of the
packed arguments. -/
def get (b : Block) (key : List ℤ) (default : ℚ) : ℚ :=
  match dGet b.data (BKey.tup key) with
  | some l => l.value
  | none => default

/-- Method `Block.update_line`: store the line under its own key. -/
def update_line (b : Block) (l : ValueLine) : Block :=
  { b with data := dSet b.data l.key l }

/-- Method `Block.merge` (`yaslha/block.py`): apply `update_line` to every
line of the other block, in storage order. -/
def merge (b another : Block) : Block :=
  another.data.foldl (fun acc kv => acc.update_line kv.2) b

end Block

/-- A block named A with scale `Q = 1` and head comment `one`. -/
def bQ1 : Block :=
  { head := { name := "A", q := some 1, comment := "one", preComment := [] }, data := [] }

/-- A block named A with scale `Q = 2` and head comment `two`. -/
def bQ2 : Block :=
  { head := { name := "A", q := some 2, comment := "two", preComment := [] }, data := [] }

/-- C7, counterexample: `Block.merge` copies neither the Q value nor the
head comment of the other block — after `bQ1.merge(bQ2)` the Q value is
still 1, not 2, and the head comment is still `one`. -/
theorem C7_merge_counterexample :
    (bQ1.merge bQ2).head.q ≠ bQ2.head.q ∧
    (bQ1.merge bQ2).head.comment ≠ bQ2.head.comment := by
  constructor
  · intro h
    simp [Block.merge, bQ1, bQ2] at h
  · intro h
    simp [Block.merge, bQ1, bQ2] at h

theorem merge_foldl_aux (entries : List (BKey × ValueLine)) (b : Block)
    (hwf : ∀ kv ∈ entries, kv.1 = kv.2.key) (hnd : (dKeys entries).Nodup) :
    (entries.foldl (fun acc kv => acc.update_line kv.2) b).head = b.head ∧
    (∀ k, dGet (entries.foldl (fun acc kv => acc.update_line kv.2) b).data k =
      (dGet entries k).or (dGet b.data k)) ∧
    dKeys (entries.foldl (fun acc kv => acc.update_line kv.2) b).data =
      dKeys b.data ++ (dKeys entries).filter (fun k => ¬ k ∈ dKeys b.data) := by
  induction entries generalizing b with
  | nil =>
    refine ⟨rfl, ?_, by simp [dGet, dKeys]⟩
    intro k
    simp [dGet]
  | cons kv rest ih =>
    have hkey : kv.1 = kv.2.key := hwf kv (List.mem_cons_self kv rest)
    have hwf' : ∀ kv' ∈ rest, kv'.1 = kv'.2.key :=
      fun kv' h => hwf kv' (List.mem_cons_of_mem kv h)
    have hnd' : (dKeys rest).Nodup := by
      rw [dKeys_cons] at hnd
      exact hnd.of_cons
    have hnotin : ¬ kv.1 ∈ dKeys rest := by
      rw [dKeys_cons] at hnd
      exact (List.nodup_cons.mp hnd).1
    have hdata : (b.update_line kv.2).data = dSet b.data kv.1 kv.2 := by
      unfold Block.update_line
      rw [hkey]
    obtain ⟨ihh, ihl, ihk⟩ := ih (b.update_line kv.2) hwf' hnd'
    refine ⟨ihh, ?_, ?_⟩
    · intro k
      rw [List.foldl_cons] at *
      rw [ihl k, hdata]
      by_cases hk : k = kv.1
      · subst hk
        have hrest : dGet rest kv.1 = none := by
          cases hg : dGet rest kv.1 with
          | none => rfl
          | some v =>
            exfalso
            exact hnotin ((dGet_isSome_iff_mem rest kv.1).mp (by rw [hg]; rfl))
        rw [hrest, dGet_dSet_self]
        have hhd : dGet (kv :: rest) kv.1 = some kv.2 := by
          rw [dGet, if_pos rfl]
        rw [hhd]
        rfl
      · rw [dGet_dSet_ne _ _ _ _ hk]
        have : dGet (kv :: rest) k = dGet rest k := by
          rw [dGet, if_neg (fun hc => hk hc.symm)]
        rw [this]
    · rw [List.foldl_cons] at *
      rw [ihk, hdata, dKeys_cons]
      by_cases hmem : kv.1 ∈ dKeys b.data
      · rw [dKeys_dSet_mem _ _ _ hmem]
        have : (kv.1 :: dKeys rest).filter (fun k => ¬ k ∈ dKeys b.data) =
            (dKeys rest).filter (fun k => ¬ k ∈ dKeys b.data) := by
          rw [List.filter_cons]
          simp [hmem]
        rw [this]
      · rw [dKeys_dSet_not_mem _ _ _ hmem]
        have h1 : (kv.1 :: dKeys rest).filter (fun k => ¬ k ∈ dKeys b.data) =
            kv.1 :: (dKeys rest).filter (fun k => ¬ k ∈ dKeys b.data) := by
          rw [List.filter_cons]
          simp [hmem]
        have h2 : (dKeys rest).filter (fun k => ¬ k ∈ dKeys b.data ++ [kv.1]) =
            (dKeys rest).filter (fun k => ¬ k ∈ dKeys b.data) := by
          apply List.filter_congr
          intro x hx
          have hxne : x ≠ kv.1 := fun hc => hnotin (hc ▸ hx)
          simp [List.mem_append, hxne]
        rw [h2, h1, List.append_assoc]
        rfl

/-- C7, amended: `Block.merge(other)` leaves the head line — hence the Q
value and head comment — unchanged, and applies every line of `other` on top
of `self`: lines of `other` override those of `self`, pre-existing keys keep
their insertion order, and new keys are appended at the end in the order of
`other`. (Copying Q and the head comment happens only in the legacy
`yaslha/core.py` version of `merge`, not in `yaslha/block.py`.) -/
theorem C7_merge_amended (b a : Block)
    (hwf : ∀ kv ∈ a.data, kv.1 = kv.2.key) (hnd : (dKeys a.data).Nodup) :
    (b.merge a).head = b.head ∧
    (∀ k, dGet (b.merge a).data k = (dGet a.data k).or (dGet b.data k)) ∧
    dKeys (b.merge a).data =
      dKeys b.data ++ (dKeys a.data).filter (fun k => ¬ k ∈ dKeys b.data) :=
  merge_foldl_aux a.data b hwf hnd

/-- A block with one line at key 1 and one at key 2. -/
def bM1 : Block :=
  { head := { name := "A", q := some 1, comment := "one", preComment := [] },
    data := [(BKey.idx 1, { key := .idx 1, value := 10, comment := "", preComment := [] }),
             (BKey.idx 2, { key := .idx 2, value := 20, comment := "", preComment := [] })] }

/-- A block with one line at key 2 and one at key 3. -/
def bM2 : Block :=
  { head := { name := "A", q := some 2, comment := "two", preComment := [] },
    data := [(BKey.idx 2, { key := .idx 2, value := 200, comment := "", preComment := [] }),
             (BKey.idx 3, { key := .idx 3, value := 300, comment := "", preComment := [] })] }

theorem C7_merge_amended_witness :
    (bM1.merge bM2).head = bM1.head ∧
    dGet (bM1.merge bM2).data (BKey.idx 2) =
      (dGet bM2.data (BKey.idx 2)).or (dGet bM1.data (BKey.idx 2)) ∧
    dKeys (bM1.merge bM2).data = [BKey.idx 1, BKey.idx 2, BKey.idx 3] := by
  have hwf : ∀ kv ∈ bM2.data, kv.1 = kv.2.key := by decide
  have hnd : (dKeys bM2.data).Nodup := by decide
  obtain ⟨h1, h2, h3⟩ := C7_merge_amended bM1 bM2 hwf hnd
  refine ⟨h1, h2 (BKey.idx 2), ?_⟩
  rw [h3]
  decide

/-- The ASCII whitespace characters stripped by the no-argument Python
method `str.rstrip`. -/
def isPyWs (c : Char) : Bool :=
  c = ' ' || c = '\t' || c = '\n' || c = '\r' || c = '\x0b' || c = '\x0c'

/-- Python `value.rstrip()` as performed by `InfoLine.__init__` in
`yaslha/line.py`: drop trailing whitespace. -/
def pyRstrip (s : String) : String :=
  String.mk (s.data.reverse.dropWhile isPyWs).reverse

/-- A line of an INFO block (`InfoLine` in `yaslha/line.py`): integer key,
string value. `InfoLine.__init__` stores `value.rstrip()`; constructions of
this structure that model `InfoLine(key, v)` apply `pyRstrip` to the value. -/
structure InfoLine where
  key : ℤ
  value : String
  comment : String
  preComment : List String
deriving DecidableEq

/-- INFO block (`InfoBlock` in `yaslha/block.py`): physically a sequence of
lines; keys may repeat. -/
structure InfoBlock where
  head : BlockHeadLine
  data : List InfoLine
deriving DecidableEq

/-- A Python value that is either a bare string or a list of strings, as
received by `InfoBlock.__setitem__`. -/
inductive PyStrOrList where
  | str : String → PyStrOrList
  | list : List String → PyStrOrList

namespace InfoBlock

/-- Method `InfoBlock.__delitem__`: keep the lines whose key differs. -/
def delItem (b : InfoBlock) (k : ℤ) : InfoBlock :=
  { b with data := b.data.filter (fun l => l.key != k) }

/-- Method `InfoBlock.__setitem__`: a bare string raises `TypeError`
(modelled as `none`); a list first deletes every line of the key and then
appends one fresh line per element, each built by `InfoLine.__init__`,
which right-strips the value. -/
def setItem (b : InfoBlock) (k : ℤ) (v : PyStrOrList) : Option InfoBlock :=
  match v with
  | .str _ => none
  | .list vs =>
    let b1 := b.delItem k
    some { b1 with data :=
      b1.data ++ vs.map (fun s => { key := k, value := pyRstrip s, comment := "", preComment := [] }) }

/-- Method `InfoBlock.__getitem__`: the values of all lines with the key,
in storage order. -/
def getItem (b : InfoBlock) (k : ℤ) : List String :=
  (b.data.filter (fun l => l.key == k)).map (fun l => l.value)

end InfoBlock

theorem filter_ne_key_filter_eq_key (L : List InfoLine) (k : ℤ) :
    (L.filter (fun l => l.key != k)).filter (fun l => l.key == k) = [] := by
  induction L with
  | nil => rfl
  | cons a t ih =>
    by_cases ha : a.key = k
    · simp [List.filter_cons, ha, ih]
    · simp [List.filter_cons, ha, ih]

/-- An empty SPINFO block. -/
def ibSPINFO : InfoBlock :=
  { head := { name := "SPINFO", q := none, comment := "", preComment := [] }, data := [] }

/-- C9, counterexample: storing the single value `"calculator "` (with a
trailing blank) under key 1 of an empty SPINFO block and reading the key
back does not return `["calculator "]`: `InfoLine.__init__` right-strips
the stored value, so `__getitem__` yields `["calculator"]`, not exactly
the given sequence. -/
theorem C9_infoblock_setitem_counterexample :
    ∃ b', ibSPINFO.setItem 1 (.list ["calculator "]) = some b' ∧
      b'.getItem 1 ≠ ["calculator "] := by
  refine ⟨_, rfl, by decide⟩

/-- C9, amended: `InfoBlock.__setitem__(key, value)` raises a type error on
a bare string value, and otherwise replaces all lines of the key with one
fresh line per element, so that `__getitem__(key)` afterwards returns the
given values right-stripped; in particular it returns exactly the given
sequence whenever no value carries trailing whitespace. -/
theorem C9_infoblock_setitem_amended (b : InfoBlock) (k : ℤ) :
    (∀ s, b.setItem k (.str s) = none) ∧
    (∀ vs, ∃ b', b.setItem k (.list vs) = some b' ∧
      b'.getItem k = vs.map pyRstrip) ∧
    (∀ vs, (∀ v ∈ vs, pyRstrip v = v) →
      ∃ b', b.setItem k (.list vs) = some b' ∧ b'.getItem k = vs) := by
  have hmain : ∀ vs : List String, ∃ b', b.setItem k (.list vs) = some b' ∧
      b'.getItem k = vs.map pyRstrip := by
    intro vs
    refine ⟨_, rfl, ?_⟩
    unfold InfoBlock.getItem InfoBlock.delItem
    dsimp only
    rw [List.filter_append, filter_ne_key_filter_eq_key]
    have hkeep : (vs.map (fun s =>
        ({ key := k, value := pyRstrip s, comment := "", preComment := [] } : InfoLine))).filter
          (fun l => l.key == k) =
        vs.map (fun s =>
          ({ key := k, value := pyRstrip s, comment := "", preComment := [] } : InfoLine)) := by
      induction vs with
      | nil => rfl
      | cons v t ih => simp [List.filter_cons, ih]
    rw [hkeep, List.nil_append, List.map_map]
    clear hkeep
    induction vs with
    | nil => rfl
    | cons v t ih =>
      simp only [List.map_cons]
      exact congrArg (List.cons _) ih
  refine ⟨fun s => rfl, hmain, fun vs h => ?_⟩
  obtain ⟨b', hset, hget⟩ := hmain vs
  refine ⟨b', hset, ?_⟩
  rw [hget]
  clear hset hget
  induction vs with
  | nil => rfl
  | cons v t ih =>
    rw [List.map_cons, h v (List.mem_cons_self v t),
      ih (fun x hx => h x (List.mem_cons_of_mem v hx))]

/-- C9 amended, witness: evaluation at the empty SPINFO block, key 3 and
the whitespace-free value list `["calculator"]`, discharging the
no-trailing-whitespace hypothesis. -/
theorem C9_infoblock_setitem_amended_witness :
    ibSPINFO.setItem 3 (.str "calc") = none ∧
    (∃ b', ibSPINFO.setItem 3 (.list ["calculator"]) = some b' ∧
      b'.getItem 3 = ["calculator"]) := by
  refine ⟨(C9_infoblock_setitem_amended ibSPINFO 3).1 "calc", ?_⟩
  exact (C9_infoblock_setitem_amended ibSPINFO 3).2.2 ["calculator"] (by decide)

/-- An empty block named FOO. -/
def bEmptyFOO : Block :=
  { head := { name := "FOO", q := none, comment := "", preComment := [] }, data := [] }

/-- C10, evaluation at the failing input: store value 7 under the single
integer key 5 of an empty block FOO; `__getitem__(5)` finds it, but
`get(5, default=0)` returns the default 0, because the packed argument
tuple `(5,)` never equals the stored integer key `5`. -/
theorem C10_get_default_bug :
    ∃ b : Block, bEmptyFOO.setItem (BKey.idx 5) 7 = some b ∧
      b.getItem (BKey.idx 5) = some 7 ∧
      b.get [5] 0 = 0 := by
  refine ⟨_, rfl, rfl, rfl⟩

/-!
The legacy entity model of `yaslha/core.py` and the dumper pass of
`yaslha/utility.py` (`copy_sorted_decay_block`), needed for the
frame-effect of a dump on the model.
-/

/-- Round half to even, the rounding used by Python float formatting. -/
def roundHalfEven (x : ℚ) : ℤ :=
  let f := ⌊x⌋
  let r := x - f
  if r < 1 / 2 then f
  else if 1 / 2 < r then f + 1
  else if Even f then f else f + 1

/-- Round a positive-or-zero-numerator rational to `n` significant decimal
digits, as Python float formatting does. -/
def sigRound (n : ℕ) (q : ℚ) : ℚ :=
  if q = 0 then 0
  else
    let a := |q|
    let e : ℤ := Int.log 10 a
    let scale : ℤ := (n : ℤ) - 1 - e
    let m : ℤ := roundHalfEven (a * (10 : ℚ) ^ scale)
    let r := (m : ℚ) / (10 : ℚ) ^ scale
    if q < 0 then -r else r

/-- The 10-significant-digit chop `float('{:.10g}'.format(x))` applied by
the legacy `Decay.br`. -/
def chop10 (q : ℚ) : ℚ := sigRound 10 q

/-- Comment-line positions of the legacy API (`CommentPosition`): before
the head line, between head and first data line, after the block. -/
inductive CPos where
  | pre
  | heading
  | suf
deriving DecidableEq

/-- Key of the legacy decay's `_comment_lines` dict: a position or a
channel. -/
inductive DCKey where
  | pos : CPos → DCKey
  | ch : List ℤ → DCKey
deriving DecidableEq

/-- Entry of the legacy decay's channel map (`PartialWidth` in core). -/
structure PartialWidth where
  width : ℚ
  comment : String
deriving DecidableEq

/-- Legacy decay container (`Decay` in `yaslha/core.py`): raw channel
tuples map to explicit partial widths; BRs are derived from the total. -/
structure DecayOld where
  pid : ℤ
  width : ℚ
  head_comment : String
  data : List (List ℤ × PartialWidth)
  comment_lines : List (DCKey × List String)
deriving DecidableEq

namespace DecayOld

/-- Legacy `Decay.br`: the stored width over the total, chopped to 10
significant digits (`float('{:.10g}'.format(...))`), or 0.0 if absent. -/
def br (d : DecayOld) (ch : List ℤ) : ℚ :=
  match dGet d.data ch with
  | some pw => chop10 (pw.width / d.width)
  | none => 0

/-- Legacy `Decay.comment` with its default, `''`. -/
def comment (d : DecayOld) (ch : List ℤ) : String :=
  match dGet d.data ch with
  | some pw => pw.comment
  | none => ""

/-- Legacy `Decay.line_comment`: `self._comment_lines.get(position, [])`. -/
def line_comment (d : DecayOld) (k : DCKey) : List String :=
  match dGet d.comment_lines k with
  | some c => c
  | none => []

/-- Legacy `Decay.__setitem__` with a plain BR value: stores
`PartialWidth(self.width * br, '')`. -/
def setItem (d : DecayOld) (ch : List ℤ) (brv : ℚ) : DecayOld :=
  { d with data := dSet d.data ch { width := d.width * brv, comment := "" } }

/-- Legacy `Decay.set_comment`; raises `KeyError` (`none`) when absent. -/
def set_comment (d : DecayOld) (ch : List ℤ) (c : String) : Option DecayOld :=
  match dGet d.data ch with
  | some pw => some { d with data := dSet d.data ch { pw with comment := c } }
  | none => none

/-- Legacy `Decay.set_line_comment`. -/
def set_line_comment (d : DecayOld) (k : DCKey) (v : List String) : DecayOld :=
  { d with comment_lines := dSet d.comment_lines k v }

/-- Legacy `Decay.clear_line_comment`. -/
def clear_line_comment (d : DecayOld) (k : DCKey) : DecayOld :=
  { d with comment_lines := dDel d.comment_lines k }

/-- Legacy `Decay.items_br`: `(channel, width/total)` pairs, unchopped. -/
def items_br (d : DecayOld) : List (List ℤ × ℚ) :=
  d.data.map (fun kv => (kv.1, kv.2.width / d.width))

/-- Legacy `Decay.rename_channel(old, new)`: `KeyError` (`none`) unless
`old` is present and `new` is equal to `old` or absent. The old entry and
its line comments move to `new`; the BR passes through `br` (and so through
the 10-digit chop) and the stored width is recomputed as `width * br`.
Deletion bypasses `__delitem__`, so the total width is not recomputed. -/
def rename_channel (d : DecayOld) (old new : List ℤ) : Option DecayOld :=
  if (dGet d.data old).isNone ∨ (new ≠ old ∧ (dGet d.data new).isSome) then none
  else
    let old_br := d.br old
    let old_comment := d.comment old
    let old_line_comment := d.line_comment (.ch old)
    let d1 : DecayOld := { d with data := dDel d.data old }
    let d2 := d1.clear_line_comment (.ch old)
    let d3 := d2.setItem new old_br
    match d3.set_comment new old_comment with
    | none => none
    | some d4 =>
      some (if old_line_comment ≠ [] then d4.set_line_comment (.ch new) old_line_comment
            else d4)

end DecayOld

/-- 0/1 value of a Python bool inside a sort key. -/
def b01 (b : Bool) : ℤ := if b then 1 else 0

/-- The tuple `ordering(pid) = (abs(pid) < 1000000, abs(pid), pid < 0)` of
`copy_sorted_decay_block`, as a list compared lexicographically the way
Python compares tuples. -/
def ordKey (p : ℤ) : List ℤ := [b01 (|p| < 1000000), |p|, b01 (p < 0)]

/-- Lexicographic less-or-equal on integer lists (Python list order). -/
def zLe : List ℤ → List ℤ → Bool
  | [], _ => true
  | _ :: _, [] => false
  | a :: as, b :: bs => if a < b then true else if b < a then false else zLe as bs

/-- Inner `ch_sorted`: the daughters sorted by `ordering` (Python `sorted`
is stable; so is insertion sort). -/
def ch_sorted (ch : List ℤ) : List ℤ :=
  ch.insertionSort (fun a b => zLe (ordKey a) (ordKey b) = true)

/-- Inner `sort_key(ch) = flatten([len(ch), [ordering(pid) for pid in ch]])`. -/
def chSortKey (ch : List ℤ) : List ℤ :=
  (ch.length : ℤ) :: (ch.map ordKey).flatten

/-- One mapping entry `(ch, ch_sorted(ch), br)` of `copy_sorted_decay_block`. -/
abbrev ChMap := List ℤ × List ℤ × ℚ

/-- The BR-grouping loop of `copy_sorted_decay_block(sort_by_br=True)`: a
group starts at the current entry and extends over the following entries
whose BR is not below `0.95 *` the BR of the group's first entry. Structural
fuel bounded by the list length makes the recursion primitive; the fuel
never runs out because `dropWhile` only shortens the list. -/
def brGroupsF : ℕ → List ChMap → List (List ChMap)
  | 0, _ => []
  | _, [] => []
  | fuel + 1, x :: rest =>
    (x :: rest.takeWhile (fun y => ¬ y.2.2 < x.2.2 * (95 / 100))) ::
      brGroupsF fuel (rest.dropWhile (fun y => ¬ y.2.2 < x.2.2 * (95 / 100)))

/-- The grouping loop, with enough fuel for its whole input. -/
def brGroups (l : List ChMap) : List (List ChMap) := brGroupsF l.length l

/-- Function `copy_sorted_decay_block(decay, sort_by_br)` of
`yaslha/utility.py`, modelled by its effect on the decay that is passed in:
`yaslha.Decay(decay)` is the legacy copy constructor, which shares `_data`
and `_comment_lines` with the original, so every `rename_channel` on the
copy mutates the original decay as well, and the state returned here is the
state of the original after the call. `none` models a `KeyError` escaping
from `rename_channel`. -/
def copy_sorted_decay_block (d : DecayOld) (sort_by_br : Bool) : Option DecayOld :=
  let mapping0 : List ChMap := d.items_br.map (fun kv => (kv.1, ch_sorted kv.1, kv.2))
  let mapping :=
    if sort_by_br then
      let tmp := mapping0.insertionSort (fun x y => y.2.2 ≤ x.2.2)
      ((brGroups tmp).map (fun g =>
        g.insertionSort (fun x y => zLe (chSortKey x.2.1) (chSortKey y.2.1) = true))).flatten
    else
      mapping0.insertionSort (fun x y => zLe (chSortKey x.2.1) (chSortKey y.2.1) = true)
  mapping.foldl (fun acc m => acc.bind (fun dd => dd.rename_channel m.1 m.2.1)) (some d)

/-- The `values_order` option of the dumper. -/
inductive ValuesOrder where
  | vdefault
  | keep
  | vsorted
deriving DecidableEq

/-- Effect of `AbsDumper._decay_lines_with_key_order` (`yaslha/dumper.py`)
on the decay handed to it: `values_order=keep` uses the decay itself and
leaves it unchanged; the default and sorted orders run
`copy_sorted_decay_block` (sorting by BR for the default), which rewrites
the original decay's channel map through the shared state. -/
def decay_lines_effect (vo : ValuesOrder) (d : DecayOld) : Option DecayOld :=
  match vo with
  | .vdefault => copy_sorted_decay_block d true
  | .vsorted => copy_sorted_decay_block d false
  | .keep => some d

/-- A legacy decay of width 1 with the single channel `(2, 1)`, daughters
deliberately not in canonical order. -/
def dOldEx : DecayOld :=
  { pid := 25, width := 1, head_comment := "",
    data := [([2, 1], { width := 1 / 2, comment := "" })],
    comment_lines := [] }

/-- C6, counterexample: dumping with the default value ordering mutates the
model beyond the name/PID housekeeping. On a decay with the single channel
`(2, 1)`, the decay-rendering pass of the dumper leaves the original decay
with the channel `(1, 2)` instead: the channel key set of the model has
changed. -/
theorem C6_dump_mutates_counterexample :
    ∃ d', decay_lines_effect ValuesOrder.vdefault dOldEx = some d' ∧
      d' ≠ dOldEx ∧
      dGet d'.data [2, 1] = none ∧
      (dGet d'.data [1, 2]).isSome = true := by
  refine ⟨_, rfl, fun h => ?_, rfl, rfl⟩
  have hnone : dGet dOldEx.data ([2, 1] : List ℤ) = none := by
    rw [← h]
    rfl
  have hsome : dGet dOldEx.data ([2, 1] : List ℤ) =
      some { width := 1 / 2, comment := "" } := rfl
  rw [hsome] at hnone
  exact Option.noConfusion hnone

theorem set_comment_preserves (d : DecayOld) (ch : List ℤ) (c : String) (d2 : DecayOld)
    (h : d.set_comment ch c = some d2) : d2.pid = d.pid ∧ d2.width = d.width := by
  unfold DecayOld.set_comment at h
  cases hg : dGet d.data ch with
  | none =>
    rw [hg] at h
    exact absurd h (by simp)
  | some pw =>
    rw [hg] at h
    injection h with h2
    rw [← h2]
    exact ⟨rfl, rfl⟩

theorem rename_channel_preserves (d : DecayOld) (o n : List ℤ) (d2 : DecayOld)
    (h : d.rename_channel o n = some d2) : d2.pid = d.pid ∧ d2.width = d.width := by
  unfold DecayOld.rename_channel at h
  split at h
  · exact absurd h (by simp)
  · dsimp only at h
    split at h
    · exact absurd h (by simp)
    · rename_i d4 hsc
      injection h with h2
      obtain ⟨p1, p2⟩ := set_comment_preserves _ _ _ _ hsc
      rw [← h2]
      constructor
      · split
        · exact p1
        · exact p1
      · split
        · exact p2
        · exact p2

theorem fold_rename_none (ms : List ChMap) :
    ms.foldl (fun acc m => acc.bind (fun dd => dd.rename_channel m.1 m.2.1))
      (none : Option DecayOld) = none := by
  induction ms with
  | nil => rfl
  | cons m rest ih =>
    rw [List.foldl_cons]
    exact ih

theorem fold_rename_preserves (ms : List ChMap) (d d' : DecayOld)
    (h : ms.foldl (fun acc m => acc.bind (fun dd => dd.rename_channel m.1 m.2.1))
      (some d) = some d') :
    d'.pid = d.pid ∧ d'.width = d.width := by
  induction ms generalizing d with
  | nil =>
    injection h with h2
    rw [h2]
    exact ⟨rfl, rfl⟩
  | cons m rest ih =>
    rw [List.foldl_cons] at h
    cases hr : d.rename_channel m.1 m.2.1 with
    | none =>
      rw [show ((some d).bind fun dd => dd.rename_channel m.1 m.2.1) = none by
        simp [hr]] at h
      rw [fold_rename_none] at h
      exact absurd h (by simp)
    | some d1 =>
      rw [show ((some d).bind fun dd => dd.rename_channel m.1 m.2.1) = some d1 by
        simp [hr]] at h
      obtain ⟨h1, h2⟩ := ih d1 h
      obtain ⟨p1, p2⟩ := rename_channel_preserves d m.1 m.2.1 d1 hr
      exact ⟨h1.trans p1, h2.trans p2⟩

/-- C6, amended: a dump with `values_order=keep` leaves the decay unchanged;
with the default or sorted value ordering, the decay-rendering pass rewrites
the decay's channel map through the channel map shared by the legacy copy
constructor (channels are renamed to canonically sorted daughter tuples and
re-ordered), and only the decay's PID and total width are guaranteed to
survive unchanged. -/
theorem C6_dump_effect_amended (vo : ValuesOrder) (d d' : DecayOld)
    (h : decay_lines_effect vo d = some d') :
    d'.pid = d.pid ∧ d'.width = d.width ∧ (vo = ValuesOrder.keep → d' = d) := by
  cases vo with
  | keep =>
    injection h with h2
    rw [h2]
    exact ⟨rfl, rfl, fun _ => rfl⟩
  | vdefault =>
    obtain ⟨p1, p2⟩ := fold_rename_preserves _ d d' h
    exact ⟨p1, p2, fun hc => ValuesOrder.noConfusion hc⟩
  | vsorted =>
    obtain ⟨p1, p2⟩ := fold_rename_preserves _ d d' h
    exact ⟨p1, p2, fun hc => ValuesOrder.noConfusion hc⟩

theorem C6_dump_effect_amended_witness :
    ∃ d', decay_lines_effect ValuesOrder.vdefault dOldEx = some d' ∧
      d'.pid = dOldEx.pid ∧ d'.width = dOldEx.width := by
  refine ⟨_, rfl, (C6_dump_effect_amended ValuesOrder.vdefault dOldEx _ rfl).1,
    (C6_dump_effect_amended ValuesOrder.vdefault dOldEx _ rfl).2.1⟩

/-!
The line grammar. The legacy line module (`parse_string`,
`parse_string_in_info_block` and the `BlockLine`/`DecayBlockLine`/
`CommentLine` classes) that `yaslha/parser.py` and `yaslha/dumper.py` use is
not part of the source tree; it is modelled from the spec here: per-line
classification is ordered and first-match-wins over full-line patterns
(comment, block head, decay head, 0/1/2/3-index value line, decay line;
inside an INFO block: comment, heads, info line), keywords match
case-insensitively, numbers accept Fortran `d`/`D` exponent letters, and a
trailing `# comment` is split off with one following space consumed.
-/

/-- A Python number: `int` or `float` (exact rational model). -/
inductive PyNum where
  | i : ℤ → PyNum
  | f : ℚ → PyNum
deriving DecidableEq

/-- Modelled from the spec: the classification of one input line. -/
inductive LineObj where
  | comm (line : String)
  | blockHead (name : String) (q : Option ℚ) (comment : String)
  | decayHead (pid : ℤ) (width : ℚ) (comment : String)
  | value (key : BKey) (v : PyNum) (comment : String)
  | decayL (br : ℚ) (nda : ℤ) (channel : List ℤ) (comment : String)
  | infoL (key : ℤ) (value : String) (comment : String)
deriving DecidableEq

/-- Whitespace inside a line (`\s` of the line patterns; newlines cannot
occur inside a split line). -/
def isSpc (c : Char) : Bool := c = ' ' || c = '\t'

/-- Split a line at its first `#`: the body and, when a `#` is present, the
text after it. -/
def splitHash : List Char → List Char × Option (List Char)
  | [] => ([], none)
  | c :: t =>
    if c = '#' then ([], some t)
    else
      let r := splitHash t
      (c :: r.1, r.2)

/-- The captured comment of the `TAIL` pattern `\s*(?:\# ?(?P<comment>.*))?`:
the text after `#`, with one following space consumed. -/
def commentOf (r : Option (List Char)) : String :=
  match r with
  | none => ""
  | some (' ' :: t) => String.mk t
  | some t => String.mk t

/-- Whitespace tokenization with structural fuel; the fuel (the input
length) never runs out. -/
def tokenizeF : ℕ → List Char → List (List Char)
  | 0, _ => []
  | _ + 1, [] => []
  | fuel + 1, c :: t =>
    if isSpc c then tokenizeF fuel t
    else (c :: t.takeWhile (fun x => ¬ isSpc x)) ::
      tokenizeF fuel (t.dropWhile (fun x => ¬ isSpc x))

/-- Split a line body into whitespace-separated tokens. -/
def tokenize (s : List Char) : List (List Char) := tokenizeF s.length s

/-- Numeric value of a digit string. -/
def digitsToNat (t : List Char) : ℕ :=
  t.foldl (fun a c => a * 10 + (c.toNat - ('0').toNat)) 0

/-- The pattern `\d+`. -/
def parseNatTok (t : List Char) : Option ℕ :=
  if t ≠ [] ∧ t.all Char.isDigit then some (digitsToNat t) else none

/-- The pattern `INT = [+-]?\d+`. -/
def parseIntTok : List Char → Option ℤ
  | '+' :: t => (parseNatTok t).map (fun n => (n : ℤ))
  | '-' :: t => (parseNatTok t).map (fun n => -(n : ℤ))
  | t => (parseNatTok t).map (fun n => (n : ℤ))

/-- The mantissa alternatives `\d+\.\d*|\d+|\.\d+` of the `FLOAT` pattern. -/
def parseMantissa (m : List Char) : Option ℚ :=
  let ip := m.takeWhile Char.isDigit
  let rest := m.drop ip.length
  match rest with
  | [] => if ip ≠ [] then some (digitsToNat ip) else none
  | '.' :: frac =>
    if (ip ≠ [] ∨ frac ≠ []) ∧ frac.all Char.isDigit then
      some ((digitsToNat ip : ℚ) + (digitsToNat frac : ℚ) / (10 : ℚ) ^ frac.length)
    else none
  | _ => none

/-- An exponent letter of the `FLOAT` pattern (`[deDE]`; Fortran `d`/`D`
counts as `e`). -/
def isExpChar (c : Char) : Bool := c = 'd' || c = 'D' || c = 'e' || c = 'E'

/-- The exponent `[+-]\d+` of the `FLOAT` pattern: the sign is mandatory. -/
def parseExpPart : List Char → Option ℤ
  | '+' :: t => (parseNatTok t).map (fun n => (n : ℤ))
  | '-' :: t => (parseNatTok t).map (fun n => -(n : ℤ))
  | _ => none

/-- The pattern `FLOAT = [+-]?(\d+\.\d*|\d+|\.\d+)([deDE][+-]\d+)?`,
evaluated exactly (`_float` replaces `d`/`D` by `e`/`E` and calls
`float`). -/
def parseFloatTok (s : List Char) : Option ℚ :=
  let signAndRest : ℚ × List Char :=
    match s with
    | '+' :: t => (1, t)
    | '-' :: t => (-1, t)
    | t => (1, t)
  let sgn := signAndRest.1
  let t := signAndRest.2
  let mpart := t.takeWhile (fun c => ¬ isExpChar c)
  let epart := t.drop mpart.length
  match parseMantissa mpart with
  | none => none
  | some m =>
    match epart with
    | [] => some (sgn * m)
    | _ :: et =>
      match parseExpPart et with
      | some e => some (sgn * m * (10 : ℚ) ^ (e : ℤ))
      | none => none

/-- Function `to_number` (`yaslha/_line.py`): the bare-integer pattern
decides `int`, otherwise the float pattern decides `float`. -/
def to_number (s : List Char) : Option PyNum :=
  match parseIntTok s with
  | some n => some (.i n)
  | none => (parseFloatTok s).map .f

/-- The pattern `NAME = [A-Za-z][A-Za-z0-9]*`. -/
def isNameTok : List Char → Bool
  | [] => false
  | c :: r => c.isAlpha && r.all (fun x => x.isAlpha || x.isDigit)

/-- Case-insensitive keyword comparison (the patterns compile with
`re.I`). -/
def tokLowerIs (t : List Char) (w : List Char) : Bool :=
  t.map Char.toLower == w

/-- Drop trailing whitespace. -/
def rstripC (l : List Char) : List Char := (l.reverse.dropWhile isSpc).reverse

/-- The optional scale `(SEP Q=\s*FLOAT)?` of a block-head line, taken from
the tokens after the name: nothing, or `Q=` glued to the number, or `Q=`
followed by the number. Returns `none` for a malformed tail. -/
def parseQPart (ts : List (List Char)) : Option (Option ℚ) :=
  match ts with
  | [] => some none
  | t :: rest =>
    match t with
    | q :: eq :: qrest =>
      if (q = 'Q' ∨ q = 'q') ∧ eq = '=' then
        match qrest, rest with
        | [], [f] => (parseFloatTok f).map some
        | [], _ => none
        | _, [] => (parseFloatTok qrest).map some
        | _, _ => none
      else none
    | _ => none

/-- Classification outside INFO blocks (modelled from the spec): comment,
block head, decay head, 0/1/2/3-index value line, decay line — first match
wins, whole-line anchored. -/
def parse_string (line : String) : Option LineObj :=
  let cs := line.data
  let bodyAndComment := splitHash cs
  let body := bodyAndComment.1
  let cmt := commentOf bodyAndComment.2
  if body.all isSpc ∧ (bodyAndComment.2).isSome then
    some (.comm (String.mk (cs.dropWhile isSpc)))
  else
    match tokenize body with
    | t0 :: t1 :: rest =>
      if tokLowerIs t0 "block".data then
        if isNameTok t1 then
          match parseQPart rest with
          | some q => some (.blockHead (strUpper (String.mk t1)) q cmt)
          | none => none
        else none
      else if tokLowerIs t0 "decay".data then
        match rest with
        | [t2] =>
          match parseIntTok t1, parseFloatTok t2 with
          | some pid, some w => some (.decayHead pid w cmt)
          | _, _ => none
        | _ => none
      else
        match tokenize body with
        | [v] =>
          match parseFloatTok v, to_number v with
          | some _, some n => some (.value .noKey n cmt)
          | _, _ => none
        | [i1, v] =>
          match parseIntTok i1, parseFloatTok v, to_number v with
          | some k, some _, some n => some (.value (.idx k) n cmt)
          | _, _, _ =>
            decayLineOf body cmt
        | [i1, i2, v] =>
          match parseIntTok i1, parseIntTok i2, parseFloatTok v, to_number v with
          | some k1, some k2, some _, some n => some (.value (.tup [k1, k2]) n cmt)
          | _, _, _, _ => decayLineOf body cmt
        | [i1, i2, i3, v] =>
          match parseIntTok i1, parseIntTok i2, parseIntTok i3, parseFloatTok v,
              to_number v with
          | some k1, some k2, some k3, some _, some n =>
            some (.value (.tup [k1, k2, k3]) n cmt)
          | _, _, _, _, _ => decayLineOf body cmt
        | _ => decayLineOf body cmt
    | [v] =>
      match parseFloatTok v, to_number v with
      | some _, some n => some (.value .noKey n cmt)
      | _, _ => none
    | _ => none
where
  /-- The decay-line pattern `FLOAT SEP INT SEP [0-9\s+-]+ TAIL`, daughters
  read by `int()` after a whitespace split. -/
  decayLineOf (body : List Char) (cmt : String) : Option LineObj :=
    match tokenize body with
    | b :: n :: rest =>
      match parseFloatTok b, parseIntTok n with
      | some brv, some nda =>
        if rest ≠ [] then
          match sequenceInts (rest.map parseIntTok) with
          | some ch => some (.decayL brv nda ch cmt)
          | none => none
        else none
      | _, _ => none
    | _ => none
  sequenceInts : List (Option ℤ) → Option (List ℤ)
    | [] => some []
    | none :: _ => none
    | some z :: t => (sequenceInts t).map (fun r => z :: r)

/-- Classification inside an INFO block (modelled from the spec): comment,
block head, decay head, or an info line `INT SEP INFO TAIL` whose value is
the raw text after the key, left- and right-stripped. -/
def parse_string_in_info_block (line : String) : Option LineObj :=
  let cs := line.data
  let bodyAndComment := splitHash cs
  let body := bodyAndComment.1
  let cmt := commentOf bodyAndComment.2
  if body.all isSpc ∧ (bodyAndComment.2).isSome then
    some (.comm (String.mk (cs.dropWhile isSpc)))
  else
    match tokenize body with
    | t0 :: t1 :: rest =>
      if tokLowerIs t0 "block".data then
        if isNameTok t1 then
          match parseQPart rest with
          | some q => some (.blockHead (strUpper (String.mk t1)) q cmt)
          | none => none
        else none
      else if tokLowerIs t0 "decay".data then
        match rest with
        | [t2] =>
          match parseIntTok t1, parseFloatTok t2 with
          | some pid, some w => some (.decayHead pid w cmt)
          | _, _ => infoLineOf body cmt
        | _ => infoLineOf body cmt
      else infoLineOf body cmt
    | _ => infoLineOf body cmt
where
  /-- The info-line pattern: leading spaces, an integer key, at least one
  space, then at least one more character; the value is the remainder
  stripped on both sides. -/
  infoLineOf (body : List Char) (cmt : String) : Option LineObj :=
    let afterLead := body.dropWhile isSpc
    let signAndRest : List Char × List Char :=
      match afterLead with
      | '+' :: t => (['+'], t)
      | '-' :: t => (['-'], t)
      | t => ([], t)
    let digits := signAndRest.2.takeWhile Char.isDigit
    let rest := signAndRest.2.drop digits.length
    match parseIntTok (signAndRest.1 ++ digits) with
    | none => none
    | some k =>
      match rest with
      | c :: _ :: _ =>
        if isSpc c then
          some (.infoL k (String.mk (rstripC (rest.dropWhile isSpc))) cmt)
        else none
      | _ => none

/-!
The legacy `Block` and `SLHA` containers of `yaslha/core.py`, as used by
the parser of `yaslha/parser.py`.
-/

/-- Key of the legacy block's `_comment_lines` dict: a position or a data
key. -/
inductive BCKey where
  | pos : CPos → BCKey
  | bk : BKey → BCKey
deriving DecidableEq

/-- A data line stored in a legacy block: an ordinary value line, an info
line (whose value and comment are lists, one entry per `append`), or a
decay line that a block accepts blindly (`processing[obj.key] = obj` does
not check the line kind inside an ordinary block). -/
inductive OldLineV where
  | val (key : BKey) (v : PyNum) (comment : String)
  | info (key : ℤ) (values : List String) (comments : List String)
  | dec (br : ℚ) (channel : List ℤ) (comment : String)
deriving DecidableEq

/-- Legacy block (`Block` in `yaslha/core.py`). -/
structure OldBlock where
  name : String
  q : Option ℚ
  head_comment : String
  data : List (BKey × OldLineV)
  comment_lines : List (BCKey × List String)
deriving DecidableEq

/-- Legacy SLHA container (`SLHA` in `yaslha/core.py`): plain ordered dicts
(the parser stores blocks under the upper-cased head-line name). -/
structure OldSLHA where
  blocks : List (String × OldBlock)
  decays : List (ℤ × DecayOld)
  tail_comment : List String
deriving DecidableEq

/-- Parser warnings (`yaslha/exceptions.py`), surfaced on the side channel
by `warnings.warn` and never raised. -/
inductive PWarn where
  | unrecognizedLine (line : String)
  | invalidFormat (line : String) (blockTitle : String)
  | orphanLine (line : String)
deriving DecidableEq

/-- The parser's `processing` reference: the open block's name (the dict
key) or the open decay's PID. -/
inductive Processing where
  | blockRef (name : String)
  | decayRef (pid : ℤ)
deriving DecidableEq

/-- The whole parser state: `processing`, the comment buffer, the SLHA
object under construction, and the warnings emitted so far. -/
structure PState where
  processing : Option Processing
  commentBuf : List String
  slha : OldSLHA
  warnings : List PWarn
deriving DecidableEq

/-- Whether a block name makes an INFO block
(`SLHAParser.in_info_block`). -/
def endsWithINFO (s : String) : Bool := "INFO".data.isSuffixOf s.data

/-- Whether the parser is inside an INFO block. -/
def in_info (st : PState) : Bool :=
  match st.processing with
  | some (.blockRef name) => endsWithINFO name
  | _ => false

/-- Update the block the parser is processing, in place in the SLHA dict. -/
def blockUpdate (s : OldSLHA) (name : String) (f : OldBlock → OldBlock) : OldSLHA :=
  match dGet s.blocks name with
  | some b => { s with blocks := dSet s.blocks name (f b) }
  | none => s

/-- Update the decay the parser is processing, in place in the SLHA dict. -/
def decayUpdate (s : OldSLHA) (pid : ℤ) (f : DecayOld → DecayOld) : OldSLHA :=
  match dGet s.decays pid with
  | some d => { s with decays := dSet s.decays pid (f d) }
  | none => s

/-- The number of keys of the open entity (`len(processing.keys())`). -/
def keysLen (s : OldSLHA) (p : Processing) : ℕ :=
  match p with
  | .blockRef name => ((dGet s.blocks name).map (fun b => b.data.length)).getD 0
  | .decayRef pid => ((dGet s.decays pid).map (fun d => d.data.length)).getD 0

/-- The key of a data-line object (`obj.key`), as a comment-dict key of the
open block. -/
def bcKeyOf : LineObj → BCKey
  | .value k _ _ => .bk k
  | .infoL k _ _ => .bk (.idx k)
  | .decayL _ _ ch _ => .bk (.tup ch)
  | _ => .bk .noKey

/-- Store a data line in an ordinary (non-INFO) legacy block:
`processing[obj.key] = obj` accepts any data-line object. -/
def blockStore (b : OldBlock) (obj : LineObj) : OldBlock :=
  match obj with
  | .value k v c => { b with data := dSet b.data k (.val k v c) }
  | .infoL k v c => { b with data := dSet b.data (.idx k) (.info k [v] [c]) }
  | .decayL brv _ ch c => { b with data := dSet b.data (.tup ch) (.dec brv ch c) }
  | _ => b

/-- Append an info line to an INFO block: a key already present appends the
value and comment to the stored `InfoLine` (`line_obj.append`), a fresh key
stores a new single-valued line. -/
def infoStore (b : OldBlock) (k : ℤ) (v c : String) : OldBlock :=
  match dGet b.data (.idx k) with
  | some (.info _ vs cs) => { b with data := dSet b.data (.idx k) (.info k (vs ++ [v]) (cs ++ [c])) }
  | some _ => b
  | none => { b with data := dSet b.data (.idx k) (.info k [v] [c]) }

/-- Attach the buffered comments after a data line was processed: with no
keys yet the buffer is kept (the line was not added), with exactly one key
they become the Heading comment, otherwise they are stored at the data
line's own key. -/
def attachComment (st : PState) (p : Processing) (obj : LineObj) : PState :=
  if st.commentBuf = [] then st
  else
    let n := keysLen st.slha p
    if n = 0 then st
    else if n = 1 then
      match p with
      | .blockRef name =>
        { st with
          commentBuf := []
          slha := blockUpdate st.slha name (fun b =>
            { b with comment_lines := dSet b.comment_lines (.pos .heading) st.commentBuf }) }
      | .decayRef pid =>
        { st with
          commentBuf := []
          slha := decayUpdate st.slha pid (fun d =>
            { d with comment_lines := dSet d.comment_lines (.pos .heading) st.commentBuf }) }
    else
      match p with
      | .blockRef name =>
        { st with
          commentBuf := []
          slha := blockUpdate st.slha name (fun b =>
            { b with comment_lines := dSet b.comment_lines (bcKeyOf obj) st.commentBuf }) }
      | .decayRef pid =>
        { st with
          commentBuf := []
          slha := decayUpdate st.slha pid (fun d =>
            let dk :=
              match obj with
              | .decayL _ _ ch _ => DCKey.ch ch
              | .value (.tup ch) _ _ => DCKey.ch ch
              | _ => DCKey.ch []
            { d with comment_lines := dSet d.comment_lines dk st.commentBuf }) }

/-- One loop iteration of `SLHAParser.parse` (`yaslha/parser.py`). -/
def pstep (st : PState) (line : String) : PState :=
  match (if in_info st then parse_string_in_info_block line else parse_string line) with
  | some (.blockHead name q c) =>
    let b : OldBlock :=
      { name := name, q := q, head_comment := c, data := [], comment_lines := [] }
    let b2 :=
      if st.commentBuf ≠ [] then
        { b with comment_lines := dSet b.comment_lines (.pos .pre) st.commentBuf }
      else b
    { processing := some (.blockRef name)
      commentBuf := []
      slha := { st.slha with blocks := dSet st.slha.blocks name b2 }
      warnings := st.warnings }
  | some (.decayHead pid w _) =>
    let d : DecayOld :=
      { pid := pid, width := w, head_comment := "", data := [], comment_lines := [] }
    let d2 :=
      if st.commentBuf ≠ [] then
        { d with comment_lines := dSet d.comment_lines (.pos .pre) st.commentBuf }
      else d
    { processing := some (.decayRef pid)
      commentBuf := []
      slha := { st.slha with decays := dSet st.slha.decays pid d2 }
      warnings := st.warnings }
  | some (.comm l) => { st with commentBuf := st.commentBuf ++ [l] }
  | some obj =>
    match st.processing with
    | none => { st with warnings := st.warnings ++ [.orphanLine line] }
    | some p =>
      let st2 :=
        match p with
        | .blockRef name =>
          if endsWithINFO name then
            match obj with
            | .infoL k v c =>
              { st with slha := blockUpdate st.slha name (fun b => infoStore b k v c) }
            | _ =>
              { st with warnings :=
                  st.warnings ++ [.invalidFormat line ("InfoBlock " ++ name)] }
          else
            { st with slha := blockUpdate st.slha name (fun b => blockStore b obj) }
        | .decayRef pid =>
          match obj with
          | .decayL brv _ ch c =>
            { st with slha := decayUpdate st.slha pid (fun d =>
                { d with data := dSet d.data ch { width := d.width * brv, comment := c } }) }
          | _ =>
            { st with warnings :=
                st.warnings ++ [.invalidFormat line ("Decay " ++ toString pid)] }
      attachComment st2 p obj
  | none => { st with warnings := st.warnings ++ [.unrecognizedLine line] }

/-- Python `str.splitlines` restricted to newline separators: the final
piece is dropped when the text ends in a newline. -/
def splitLinesC : List Char → List Char → List String
  | [], [] => []
  | [], acc => [String.mk acc.reverse]
  | c :: t, acc =>
    if c = '\n' then String.mk acc.reverse :: splitLinesC t []
    else splitLinesC t (c :: acc)

/-- Split a text into lines as `text.splitlines()` does. -/
def splitLines (s : String) : List String := splitLinesC s.data []

/-- Method `SLHAParser.parse`: fold the per-line step over the lines, then
turn a still-buffered comment run into the tail comment. -/
def parseSLHA (text : String) : PState :=
  let st0 : PState :=
    { processing := none
      commentBuf := []
      slha := { blocks := [], decays := [], tail_comment := [] }
      warnings := [] }
  let st1 := (splitLines text).foldl pstep st0
  if st1.commentBuf ≠ [] then
    { st1 with slha := { st1.slha with tail_comment := st1.commentBuf } }
  else st1

/-- C8: a line that matches no attempted pattern in the parser's current
state never raises: the parser emits an unrecognized-line warning on the
side channel and leaves everything else — the state, the comment buffer and
the partially built model — unchanged. -/
theorem C8_unrecognized_line (st : PState) (line : String)
    (h : (if in_info st then parse_string_in_info_block line else parse_string line) = none) :
    pstep st line = { st with warnings := st.warnings ++ [.unrecognizedLine line] } := by
  unfold pstep
  rw [h]

/-- The parser's initial state. -/
def pInit : PState :=
  { processing := none
    commentBuf := []
    slha := { blocks := [], decays := [], tail_comment := [] }
    warnings := [] }

theorem C8_unrecognized_line_witness :
    (if in_info pInit then parse_string_in_info_block "???" else parse_string "???") = none ∧
    pstep pInit "???" =
      { pInit with warnings := pInit.warnings ++ [.unrecognizedLine "???"] } := by
  have h : (if in_info pInit then parse_string_in_info_block "???" else parse_string "???")
      = none := by rfl
  exact ⟨h, C8_unrecognized_line pInit "???" h⟩

/-!
The text dumper (`SLHADumper` in `yaslha/dumper.py`). Option defaults come
from a configuration file that is not part of the source tree, so each
option is passed explicitly; the keyword strings default to `Block` and
`Decay` as in the line module's output options.
-/

/-- The `blocks_order` option. -/
inductive BlocksOrder where
  | bdefault
  | keep
  | abc
deriving DecidableEq

/-- The `comments_preserve` option. -/
inductive CommentsPreserve where
  | cpNone
  | cpTail
  | cpAll
deriving DecidableEq

/-- The resolved dumper options. `document_blocks` is split into its name
and PID members (names stored upper-cased, as the constructor does). -/
structure DumpOpts where
  blocks_order : BlocksOrder
  values_order : ValuesOrder
  comments_preserve : CommentsPreserve
  separate_blocks : Bool
  forbid_last_linebreak : Bool
  doc_names : List String
  doc_pids : List ℤ
  block_str : String
  decay_str : String
  float_lower : Bool
  write_version : Bool
deriving DecidableEq

/-- `CommentsPreserve.keep_line`. -/
def keepLine (o : DumpOpts) : Bool := o.comments_preserve = CommentsPreserve.cpAll

/-- `CommentsPreserve.keep_tail`. -/
def keepTail (o : DumpOpts) : Bool := ¬ o.comments_preserve = CommentsPreserve.cpNone

/-- Decimal digits of a natural number, with structural fuel (one digit is
produced per fuel step, so `n + 1` steps always suffice). -/
def natToDigitsF : ℕ → ℕ → List Char
  | 0, _ => []
  | fuel + 1, n =>
    if n < 10 then [Char.ofNat (('0').toNat + n)]
    else natToDigitsF fuel (n / 10) ++ [Char.ofNat (('0').toNat + n % 10)]

/-- Python `str` of a natural number. -/
def natToStr (n : ℕ) : List Char := natToDigitsF (n + 1) n

/-- Python `str` of an integer. -/
def intToStr (z : ℤ) : List Char :=
  if z < 0 then '-' :: natToStr z.natAbs else natToStr z.natAbs

/-- Right-aligned padding (`'{:>w}'`). -/
def padLeft (w : ℕ) (s : List Char) : List Char :=
  List.replicate (w - s.length) ' ' ++ s

/-- Left-aligned padding (`'{:w}'` for strings). -/
def padRight (w : ℕ) (s : List Char) : List Char :=
  s ++ List.replicate (w - s.length) ' '

/-- Drop leading whitespace (`str.lstrip`). -/
def lstripC (l : List Char) : List Char := l.dropWhile isSpc

/-- The scientific format `'{:16.8E}'` (`'{:16.8e}'` when `float_lower`)
over the exact rational model: nine significant digits, half-even rounding,
sign-carrying two-digit exponent, right-aligned to 16 columns. -/
def floatFmt (lower : Bool) (q : ℚ) : List Char :=
  let eChar := if lower then 'e' else 'E'
  if q = 0 then padLeft 16 ('0' :: '.' :: (List.replicate 8 '0' ++ [eChar, '+', '0', '0']))
  else
    let a := |q|
    let e0 : ℤ := Int.log 10 a
    let m0 : ℤ := roundHalfEven (a * (10 : ℚ) ^ ((8 : ℤ) - e0))
    let m : ℤ := if m0 = 10 ^ 9 then 10 ^ 8 else m0
    let e : ℤ := if m0 = 10 ^ 9 then e0 + 1 else e0
    let mant : List Char :=
      match natToStr m.toNat with
      | d0 :: rest => d0 :: '.' :: rest
      | [] => []
    let esign := if e < 0 then '-' else '+'
    let eabs := e.natAbs
    let edigits := if eabs < 10 then '0' :: natToStr eabs else natToStr eabs
    let sign : List Char := if q < 0 then ['-'] else []
    padLeft 16 (sign ++ mant ++ eChar :: esign :: edigits)

/-- `TAIL_COMMENTS_RE.sub('#', line)`: everything from the first `#` on is
replaced by a bare `#`. -/
def stripTail (s : String) : String :=
  let p := splitHash s.data
  if p.2.isSome then String.mk (p.1 ++ ['#']) else s

/-- Gate applied by `dump_line` to a formatted data line: with
`comments_preserve=none` the trailing comment is stripped. -/
def tailGate (o : DumpOpts) (s : String) : String :=
  if keepTail o then s else stripTail s

/-- `SLHADumper.comment_out`. -/
def comment_out (line : String) : String :=
  if line = "" then "#"
  else
    match line.data with
    | ' ' :: t => String.mk ('#' :: t)
    | cs => String.mk ('#' :: collapseFirst cs)
where
  /-- `str.replace('  ', ' ', 1)`: collapse the first double space. -/
  collapseFirst : List Char → List Char
    | ' ' :: ' ' :: t => ' ' :: t
    | c :: t => c :: collapseFirst t
    | [] => []

/-- The fixed table `BLOCKS_DEFAULT_ORDER` of `yaslha/utility.py`. -/
def BLOCKS_DEFAULT_ORDER : List String :=
  ["SPINFO", "DCINFO", "MODSEL", "SMINPUTS", "MINPAR", "EXTPAR",
   "VCKMIN", "UPMNSIN", "MSQ2IN", "MSU2IN", "MSD2IN", "MSL2IN", "MSE2IN",
   "TUIN", "TDIN", "TEIN",
   "MASS", "NMIX", "UMIX", "VMIX", "ALPHA", "FRALPHA", "HMIX", "GAUGE", "MSOFT",
   "MSQ2", "MSU2", "MSD2", "MSL2", "MSE2",
   "STOPMIX", "SBOTMIX", "STAUMIX", "USQMIX", "DSQMIX", "SELMIX", "SNUMIX",
   "AU", "AD", "AE", "TU", "TD", "TE", "YU", "YD", "YE"]

/-- Function `sort_blocks_default`: the known names in table order, then
the remaining names in their original order. -/
def sort_blocks_default (names : List String) : List String :=
  let up := names.map strUpper
  BLOCKS_DEFAULT_ORDER.filter (fun n => up.contains n) ++
    up.filter (fun n => ¬ BLOCKS_DEFAULT_ORDER.contains n)

/-- The particle-ID taxonomy of `sort_pids_default`, as a group index in
the order of `PID_GROUPS`. -/
def pidGroup (i : ℤ) : ℕ :=
  let j := i % 1000000
  if i < 1000000 then 0
  else if 3000000 ≤ i then 9
  else if i = 1000021 then 1
  else if j ≤ 6 then (if j % 2 = 1 then 3 else 2)
  else if i = 1000022 ∨ i = 1000023 ∨ i = 1000025 ∨ i = 1000035 then 4
  else if i = 1000024 ∨ i = 1000037 then 5
  else if j = 11 ∨ j = 13 ∨ j = 15 then 6
  else if j = 12 ∨ j = 14 ∨ j = 16 then 7
  else 8

/-- Function `sort_pids_default` on integer PIDs: the groups in taxonomy
order, each ascending. -/
def sortPidsInt (pids : List ℤ) : List ℤ :=
  (List.range 10).flatMap (fun g =>
    (pids.filter (fun p => pidGroup p == g)).insertionSort (· ≤ ·))

/-- Group of a block key under the PID taxonomy: non-integer keys are the
fail-safe `not_int` group at the end. -/
def bkeyGroup : BKey → ℕ
  | .idx i => pidGroup i
  | _ => 10

/-- A total order on block keys for `keys.sort()`; Python raises on
heterogeneous key lists, so only its behaviour on homogeneous lists (all
integers, or all equal-shape tuples) is observable. -/
def bkeyLe : BKey → BKey → Bool
  | .noKey, _ => true
  | .idx _, .noKey => false
  | .idx i, .idx j => decide (i ≤ j)
  | .idx _, .tup _ => true
  | .tup _, .noKey => false
  | .tup _, .idx _ => false
  | .tup a, .tup b => zLe a b

/-- Function `sort_pids_default` on block keys (the MASS special case). -/
def sortPidsKeys (ks : List BKey) : List BKey :=
  (List.range 11).flatMap (fun g =>
    (ks.filter (fun k => bkeyGroup k == g)).insertionSort (fun a b => bkeyLe a b = true))

/-- Comment lines stored on a legacy block at a position or key. -/
def OldBlock.line_comment (b : OldBlock) (k : BCKey) : List String :=
  (dGet b.comment_lines k).getD []

/-- `SLHADumper.dump_block_line`. -/
def dump_block_line (o : DumpOpts) (b : OldBlock) : String :=
  let qstr : List Char :=
    match b.q with
    | none => []
    | some q => 'Q' :: '=' :: floatFmt o.float_lower q
  let body := o.block_str.data ++ ' ' :: (strUpper b.name).data ++ ' ' :: qstr
  String.mk (rstripC (padRight 23 body ++ "   # ".data ++ lstripC b.head_comment.data))

/-- `SLHADumper.dump_decayblock_line`. -/
def dump_decayblock_line (o : DumpOpts) (d : DecayOld) : String :=
  String.mk (rstripC (o.decay_str.data ++ ' ' :: padLeft 9 (intToStr d.pid) ++
    "   ".data ++ floatFmt o.float_lower d.width ++
    "   # ".data ++ lstripC d.head_comment.data))

/-- `SLHADumper.dump_decay_line`. -/
def dump_decay_line (o : DumpOpts) (brv : ℚ) (ch : List ℤ) (c : String) : String :=
  let ids := (ch.map (fun i => padLeft 9 (intToStr i) ++ [' '])).flatten
  String.mk (rstripC ("   ".data ++ floatFmt o.float_lower brv ++ "   ".data ++
    padLeft 2 (intToStr ch.length) ++ "   ".data ++ ids ++ "  # ".data ++ lstripC c.data))

/-- The numeric value of a Python number, as a float. -/
def numQ : PyNum → ℚ
  | .i n => (n : ℚ)
  | .f q => q

/-- Join with single spaces (`' '.join`). -/
def joinSpace : List (List Char) → List Char
  | [] => []
  | [x] => x
  | x :: rest => x ++ ' ' :: joinSpace rest

/-- `SLHADumper.dump_value_line`: the MASS block with integer keys has its
own wider format, and integer values print as integers. -/
def dump_value_line (o : DumpOpts) (blockName : String) (k : BKey) (v : PyNum)
    (c : String) : String :=
  match blockName, k with
  | "MASS", .idx i =>
    String.mk (rstripC (' ' :: padLeft 9 (intToStr i) ++ "   ".data ++
      floatFmt o.float_lower (numQ v) ++ "   # ".data ++ lstripC c.data))
  | _, _ =>
    let key_str :=
      match k with
      | .tup t => joinSpace (t.map (fun i => padLeft 2 (intToStr i)))
      | .idx i => padLeft 5 (intToStr i)
      | .noKey => padLeft 5 []
    let value_str :=
      match v with
      | .i n => padLeft 10 (intToStr n) ++ List.replicate 6 ' '
      | .f q => floatFmt o.float_lower q
    String.mk (rstripC (' ' :: key_str ++ "   ".data ++ value_str ++
      "   # ".data ++ lstripC c.data))

/-- `SLHADumper.dump_info_line`: one output line per stored value, the
comment taken positionally when present (not left-stripped here). -/
def dump_info_line (k : ℤ) (vs cs : List String) : List String :=
  (List.range vs.length).map (fun i =>
    String.mk (rstripC (' ' :: padLeft 5 (intToStr k) ++ "   ".data ++
      padRight 16 (vs.getD i "").data ++ "   # ".data ++ (cs.getD i "").data)))

/-- `SLHADumper.dump_line` for a data line held by a block (the dispatch
tries `DecayLine` before `ValueLine`, so a decay line stored in an ordinary
block renders through `dump_decay_line`). -/
def dumpDataLine (o : DumpOpts) (blockName : String) : OldLineV → List String
  | .dec brv ch c => [dump_decay_line o brv ch c]
  | .info k vs cs => dump_info_line k vs cs
  | .val k v c => [dump_value_line o blockName k v c]

/-- Key order of `_block_lines_with_key_order`. -/
def blockKeyOrder (o : DumpOpts) (b : OldBlock) : List BKey :=
  let keys := dKeys b.data
  if o.values_order = ValuesOrder.vdefault ∧ b.name = "MASS" then sortPidsKeys keys
  else if ¬ o.values_order = ValuesOrder.keep then
    keys.insertionSort (fun a b => bkeyLe a b = true)
  else keys

/-- `SLHADumper.dump_block`: position comments, the head line, per-key
comments and data lines, cleaned of empties, commented out for a document
block. -/
def dump_block (o : DumpOpts) (b : OldBlock) (document : Bool) : List String :=
  let kl := keepLine o
  let headLines :=
    (if kl then b.line_comment (.pos .pre) else []) ++
      [tailGate o (dump_block_line o b)] ++
      (if kl then b.line_comment (.pos .heading) else [])
  let body := (blockKeyOrder o b).flatMap (fun k =>
    (if kl then b.line_comment (.bk k) else []) ++
      ((dGet b.data k).elim [] (fun lv => (dumpDataLine o b.name lv).map (tailGate o))))
  let tail := if kl then b.line_comment (.pos .suf) else []
  let lines := (headLines ++ body ++ tail).filter (fun l => l ≠ "")
  if document then lines.map comment_out else lines

/-- `SLHADumper.dump_decay`: the body renders the state after the
`values_order` pass (the shared-state effect of `copy_sorted_decay_block`),
`none` when that pass raises. -/
def dump_decay (o : DumpOpts) (d : DecayOld) (document : Bool) : Option (List String) :=
  match decay_lines_effect o.values_order d with
  | none => none
  | some sd =>
    let kl := keepLine o
    let headLines :=
      (if kl then d.line_comment (.pos .pre) else []) ++
        [tailGate o (dump_decayblock_line o d)] ++
        (if kl then d.line_comment (.pos .heading) else [])
    let body := (dKeys sd.data).flatMap (fun ch =>
      (if kl then sd.line_comment (.ch ch) else []) ++
        [tailGate o (dump_decay_line o (sd.br ch) ch (sd.comment ch))])
    let tail := if kl then d.line_comment (.pos .suf) else []
    let lines := (headLines ++ body ++ tail).filter (fun l => l ≠ "")
    some (if document then lines.map comment_out else lines)

/-- `AbsDumper._blocks_sorted`. -/
def blocksSorted (o : DumpOpts) (s : OldSLHA) : List OldBlock :=
  match o.blocks_order with
  | .keep => s.blocks.map Prod.snd
  | .abc => (((dKeys s.blocks).insertionSort
      (fun a b => charsLe a.data b.data = true)).filterMap (dGet s.blocks))
  | .bdefault => (sort_blocks_default (dKeys s.blocks)).filterMap (dGet s.blocks)
where
  charsLe : List Char → List Char → Bool
    | [], _ => true
    | _ :: _, [] => false
    | a :: as, b :: bs =>
      if a.toNat < b.toNat then true
      else if b.toNat < a.toNat then false
      else charsLe as bs

/-- `AbsDumper._decays_sorted` (keyed on `values_order` in the source). -/
def decaysSorted (o : DumpOpts) (s : OldSLHA) : List DecayOld :=
  match o.values_order with
  | .keep => s.decays.map Prod.snd
  | .vsorted => (((dKeys s.decays).insertionSort (· ≤ ·)).filterMap (dGet s.decays))
  | .vdefault => (sortPidsInt (dKeys s.decays)).filterMap (dGet s.decays)

/-- Sequence a list of optional results. -/
def seqOpt {α : Type} : List (Option α) → Option (List α)
  | [] => some []
  | none :: _ => none
  | some x :: t => (seqOpt t).map (fun r => x :: r)

/-- `'\n'.join(lines)`. -/
def joinNL : List String → List Char
  | [] => []
  | [x] => x.data
  | x :: rest => x.data ++ '\n' :: joinNL rest

/-- Python `str.rstrip` (whitespace including newlines). -/
def rstripAll (l : List Char) : List Char :=
  (l.reverse.dropWhile (fun c => isSpc c || c = '\n')).reverse

/-- The `separate_blocks` pass: a `#` line is prepended to every block
after the first whose first line is not itself `#`. -/
def sepBlocks : List (List String) → List (List String)
  | [] => []
  | b0 :: rest =>
    b0 :: rest.map (fun b =>
      match b with
      | [] => ["#"]
      | l :: _ => if l = "#" then b else "#" :: b)

/-- `SLHADumper.dump`: blocks, then decays; the tail-comment list is
computed (and touched up by `separate_blocks`) but never added to the
output lines; prior version-stamp lines are blanked and a new one is
prepended when `write_version`; empty lines are dropped and everything is
joined with newlines plus a final newline. -/
def dump (o : DumpOpts) (s : OldSLHA) : Option String :=
  let blockLines := (blocksSorted o s).map (fun b =>
    dump_block o b (o.doc_names.contains b.name))
  match seqOpt ((decaysSorted o s).map (fun d =>
      dump_decay o d (o.doc_pids.contains d.pid))) with
  | none => none
  | some decayLines =>
    let tailComment := if keepLine o then s.tail_comment else []
    let tailComment2 :=
      if o.separate_blocks then
        (if tailComment = [] ∨ tailComment.getLast? ≠ some "#"
         then tailComment ++ ["#"] else tailComment)
      else tailComment
    let blocks2 := blockLines ++ decayLines
    let blocks3 := if o.separate_blocks then sepBlocks blocks2 else blocks2
    let lines := blocks3.flatten
    let lines2 := lines.map (fun l =>
      if "# written by yaslha".data.isPrefixOf l.data then "" else l)
    let lines3 := if o.write_version then "# written by yaslha 0.2.0" :: lines2 else lines2
    let result := String.mk (joinNL (lines3.filter (fun l => l ≠ "")) ++ ['\n'])
    let _ := tailComment2
    some (if o.forbid_last_linebreak then String.mk (rstripAll result.data) else result)

/-- Options for a plain round trip: keep the block and value order,
preserve all comments, no cosmetic extras, version stamping off. -/
def c3Opts : DumpOpts :=
  { blocks_order := .keep
    values_order := .keep
    comments_preserve := .cpAll
    separate_blocks := false
    forbid_last_linebreak := false
    doc_names := []
    doc_pids := []
    block_str := "Block"
    decay_str := "Decay"
    float_lower := false
    write_version := false }

/-- C3, evaluation at the failing input: the text consisting of the single
comment line `# hello` parses to a model whose tail comment holds that
line, but `SLHADumper.dump` computes the tail-comment list and never emits
it, so the dumped text is just a newline, which re-parses to the empty
model — `parse(dump(parse(T)))` is not model-equal to `parse(T)` even with
`comments_preserve=all`. -/
theorem C3_tail_comment_dropped :
    (parseSLHA "# hello\n").slha.tail_comment = ["# hello"] ∧
    dump c3Opts (parseSLHA "# hello\n").slha = some "\n" ∧
    (parseSLHA "\n").slha = pInit.slha ∧
    (parseSLHA "\n").slha ≠ (parseSLHA "# hello\n").slha := by
  refine ⟨rfl, rfl, rfl, fun h => ?_⟩
  have h2 : ([] : List String) = ["# hello"] := congrArg OldSLHA.tail_comment h
  exact List.noConfusion h2

end Yaslha
